import Mathlib

/-!
# Rule evaluation core of the Coraza WAF (`rule.go`, `bodyprocessors/multipart.go`)

A shallow embedding of `Rule.Evaluate` and the helpers it calls, of the rule
builder (`AddVariable`, `AddVariableNegation`, `SetOperator`,
`ClearTransformations`) and of `multipartBodyProcessor.Read`.

Modelling conventions

* A Go slice is the list of its `len` elements.  (The section on the exception
  slices in memory keeps the backing array as well.)
* `*Rule` in the `Chain` field is `Option Rule`; a chain is therefore a finite,
  acyclic linked list, as the rule compiler builds it.
* `RuleOperator` and `RuleAction` are Go interfaces implemented outside this
  file.  An interface value is an identifier, and its methods are looked up in
  `Externals`.  `Operator.Evaluate` receives the transaction by pointer and may
  change it, so it returns the new transaction state next to its verdict;
  `Action.Evaluate` returns the new transaction state.  Neither changes the
  rule: compiled rules are not modified by operators and actions at evaluation
  time.
* The `Transaction` type is not part of `rule.go`.  Its state is a type
  parameter `Tx` and each method `Rule.Evaluate` calls is a field of
  `Externals`.  `tx.GetField` and `tx.MacroExpansion` only read the transaction.
* Calls to the zap logger have no effect on the transaction and are left out.
* To speak about what was called and in which order, `Rule.Evaluate` returns,
  next to the matches and the final transaction state, the list of calls it
  made (`Event`), oldest first.
-/

namespace Coraza

/-- The type `variables.RuleVariable`: an enumeration stored in one byte. -/
abbrev RuleVariable := Nat

/-- The type `types.RuleActionType`.  The evaluator tells three constants apart from every
other value of the type. -/
inductive RuleActionType where
  | ActionTypeNondisruptive
  | ActionTypeDisruptive
  | ActionTypeFlow
  | ActionTypeOther (code : Nat)
  deriving DecidableEq, Repr

/-- A `*regexp.Regexp`, known by its source text (`Regexp.String()`). -/
structure Regexp where
  source : String
  deriving DecidableEq, Repr

/-- An interface value of type `RuleAction`. -/
abbrev RuleAction := Nat

/-- An interface value of type `RuleOperator`. -/
abbrev RuleOperator := Nat

/-- The type `RuleTransformation = func(input string, tools RuleTransformationTools) string`;
`tools` carries only the logger. -/
abbrev RuleTransformation := String → String

structure ruleActionParams where
  Name : String
  Function : RuleAction
  deriving DecidableEq, Repr

structure ruleOperatorParams where
  Operator : RuleOperator
  Function : String
  Data : String
  Negation : Bool
  deriving DecidableEq, Repr

structure ruleVariableException where
  KeyStr : String
  KeyRx : Option Regexp
  deriving DecidableEq, Repr

structure ruleVariableParams where
  Name : String := ""
  Count : Bool := false
  Variable : RuleVariable := 0
  KeyRx : Option Regexp := none
  KeyStr : String := ""
  Exceptions : List ruleVariableException := []
  deriving DecidableEq, Repr

structure ruleTransformationParams where
  Name : String
  Function : RuleTransformation

/-- The struct `MatchData`, with the four fields `Rule.Evaluate` fills in. -/
structure MatchData where
  VariableName : String := ""
  Variable : RuleVariable := 0
  Key : String := ""
  Value : String := ""
  deriving DecidableEq, Repr

/-- Every field of the Go struct `Rule` except `Chain`. -/
structure RuleFields where
  /-- The field `variables` (that word is reserved in Lean). -/
  ruleVariables : List ruleVariableParams := []
  operator : Option ruleOperatorParams := none
  transformations : List ruleTransformationParams := []
  actions : List ruleActionParams := []
  ParentId : Int := 0
  SecMark : String := ""
  Raw : String := ""
  File : String := ""
  Line : Int := 0
  Id : Int := 0
  Tags : List String := []
  Phase : Nat := 2
  Msg : String := ""
  Rev : String := ""
  Maturity : Int := 0
  Version : String := ""
  Accuracy : Int := 0
  Severity : Nat := 0
  LogData : String := ""
  Log : Bool := false
  MultiMatch : Bool := false
  Disruptive : Bool := false

/-- The Go struct `Rule`: its fields and the `Chain` pointer. -/
inductive Rule where
  | mk (fields : RuleFields) (Chain : Option Rule)

/-- The fields of a rule other than `Chain`. -/
def Rule.fields : Rule → RuleFields
  | .mk f _ => f

/-- The field `r.Chain`. -/
def Rule.Chain : Rule → Option Rule
  | .mk _ c => c

mutual
/-- The rule `r` followed by its chained rules. -/
def Rule.selfAndChained : Rule → List Rule
  | .mk f c => Rule.mk f c :: chainRules c
/-- The rules reachable from a `Chain` pointer by following `Chain`, nearest first. -/
def chainRules : Option Rule → List Rule
  | none => []
  | some r => r.selfAndChained
end

/-- The chained rules of `r`: `r.Chain`, `r.Chain.Chain`, and so on. -/
def Rule.chained (r : Rule) : List Rule := chainRules r.Chain

/-- The struct `MatchedRule`, as filled in at lines 346-356. -/
structure MatchedRule where
  Rule : Rule
  MatchedData : MatchData
  Message : String
  Data : String
  Uri : String
  Id : String
  Disruptive : Bool
  ServerIpAddress : String
  ClientIpAddress : String

/-- One call made by `Rule.Evaluate`, with the rule that made it. -/
inductive Event where
  /-- Entry of `Rule.Evaluate` on `r`. -/
  | evaluate (r : Rule)
  /-- Call `tx.GetField(v)` at line 254. -/
  | getField (r : Rule) (v : ruleVariableParams)
  /-- Call `r.executeOperator(data, tx)` at line 286 and what it returned. -/
  | operator (r : Rule) (data : String) (result : Bool)
  /-- Call `tx.MatchVariable(md)` at line 320. -/
  | matchVariable (r : Rule) (md : MatchData)
  /-- Call `a.Function.Evaluate(r, tx)` at line 325 or 363. -/
  | action (r : Rule) (a : ruleActionParams)
  /-- Call `tx.MatchRule(mr)` at line 346. -/
  | matchRule (mr : MatchedRule)

/-- Everything `rule.go` calls but does not define: the methods of
`Transaction`, of the `variables` and `types` packages, and of the operator and
action interfaces. -/
structure Externals (Tx : Type) where
  /-- Go `variables.RuleVariable.Name()`. -/
  varName : RuleVariable → String
  /-- Go `variables.Rule`. -/
  vRule : RuleVariable
  /-- Go `variables.RequestURI`. -/
  vRequestURI : RuleVariable
  /-- Go `variables.ServerAddr`. -/
  vServerAddr : RuleVariable
  /-- Go `variables.RemoteAddr`. -/
  vRemoteAddr : RuleVariable
  /-- Go `types.RuleSeverity.String()`. -/
  severityString : Nat → String
  /-- Go `tx.Id`. -/
  txId : Tx → String
  /-- Go `tx.MacroExpansion(text)`. -/
  MacroExpansion : Tx → String → String
  /-- Go `tx.GetCollection(v).SetData(m)`; the map literal is given as its entries. -/
  setData : Tx → RuleVariable → List (String × List String) → Tx
  /-- Go `tx.GetCollection(v).GetFirstString("")`. -/
  getFirstString : Tx → RuleVariable → String
  /-- Go `tx.ruleRemoveTargetById[id]`; a missing key gives the empty slice. -/
  ruleRemoveTargetById : Tx → Int → List ruleVariableParams
  /-- Go `tx.GetField(v)`. -/
  GetField : Tx → ruleVariableParams → List MatchData
  /-- Go `tx.MatchVariable(md)`. -/
  MatchVariable : Tx → MatchData → Tx
  /-- Go `tx.MatchRule(mr)`. -/
  MatchRule : Tx → MatchedRule → Tx
  /-- Go `RuleOperator.Evaluate(tx, input)`. -/
  operatorEvaluate : RuleOperator → Tx → String → Bool × Tx
  /-- Go `RuleAction.Type()`. -/
  actionType : RuleAction → RuleActionType
  /-- Go `RuleAction.Evaluate(r, tx)`. -/
  actionEvaluate : RuleAction → Rule → Tx → Tx

/-- The local variables of `Rule.Evaluate` that its loops update:
`matchedValues`, the transaction, and the calls made so far. -/
structure EvalState (Tx : Type) where
  matchedValues : List MatchData
  tx : Tx
  trace : List Event

variable {Tx : Type}

/-- Go `Rule.executeOperator` (lines 468-477).  The receiver is used only through
`r.operator`, which the caller has found non-nil; `o` is that operator. -/
def Rule.executeOperator (ext : Externals Tx) (o : ruleOperatorParams) (data : String)
    (tx : Tx) : Bool × Tx :=
  let res := ext.operatorEvaluate o.Operator tx data
  let result := res.1
  if o.Negation && result then (false, res.2)
  else if o.Negation && !result then (true, res.2)
  else (result, res.2)

/-- Go `Rule.executeTransformationsMultimatch` (lines 479-486).  The receiver is used
only through `r.transformations`, given here; the loop state is `(value, res)`. -/
def Rule.executeTransformationsMultimatch (transformations : List ruleTransformationParams)
    (value : String) : List String :=
  (transformations.foldl
    (fun (st : String × List String) t =>
      let value := t.Function st.1
      (value, st.2 ++ [value]))
    (value, [value])).2

/-- Go `Rule.executeTransformations` (lines 488-493).  The receiver is used only
through `r.transformations`, given here. -/
def Rule.executeTransformations (transformations : List ruleTransformationParams)
    (value : String) : String :=
  transformations.foldl (fun value t => t.Function value) value

/-- Lines 247-252: the exceptions of the loop copy `v` after the entries of `ecol`
for the same variable have been appended. -/
def mergeExceptions (ecol : List ruleVariableParams) (v : ruleVariableParams) :
    ruleVariableParams :=
  ecol.foldl
    (fun v c =>
      if c.Variable = v.Variable then
        { v with Exceptions := v.Exceptions ++ [{ KeyStr := c.KeyStr, KeyRx := none }] }
      else v)
    v

/-- Lines 285-305: the loop over the transformed candidates of one value. -/
def Rule.evalCandidates (ext : Externals Tx) (r : Rule) (o : ruleOperatorParams)
    (v : ruleVariableParams) (arg : MatchData) (args : List String) (st : EvalState Tx) :
    EvalState Tx :=
  args.foldl
    (fun st carg =>
      let res := Rule.executeOperator ext o carg st.tx
      { matchedValues :=
          if res.1 then
            st.matchedValues ++
              [{ VariableName := ext.varName v.Variable, Variable := arg.Variable,
                 Key := arg.Key, Value := carg }]
          else st.matchedValues
        tx := res.2
        trace := st.trace ++ [Event.operator r carg res.1] })
    st

/-- Lines 271-277: the candidates of one value. -/
def Rule.candidates (r : Rule) (value : String) : List String :=
  if r.fields.MultiMatch then
    Rule.executeTransformationsMultimatch r.fields.transformations value
  else
    [Rule.executeTransformations r.fields.transformations value]

/-- Lines 264-306: the loop over the values `tx.GetField` returned. -/
def Rule.evalValues (ext : Externals Tx) (r : Rule) (o : ruleOperatorParams)
    (v : ruleVariableParams) (values : List MatchData) (st : EvalState Tx) : EvalState Tx :=
  values.foldl (fun st arg => Rule.evalCandidates ext r o v arg (r.candidates arg.Value) st) st

/-- Lines 245-307: the loop over `r.variables`.  `v` is a copy of the element, so
the merged exceptions live in the copy only. -/
def Rule.evalVariables (ext : Externals Tx) (r : Rule) (o : ruleOperatorParams)
    (ecol : List ruleVariableParams) (st : EvalState Tx) : EvalState Tx :=
  r.fields.ruleVariables.foldl
    (fun st v0 =>
      let v := mergeExceptions ecol v0
      let values := ext.GetField st.tx v
      let st1 := { st with trace := st.trace ++ [Event.getField r v] }
      if values.length = 0 then st1
      else Rule.evalValues ext r o v values st1)
    st

/-- Lines 323-327 and 360-365: evaluate, in declaration order, the actions of `r`
whose type satisfies `sel`. -/
def Rule.runActions (ext : Externals Tx) (r : Rule) (sel : RuleActionType → Bool)
    (st : EvalState Tx) : EvalState Tx :=
  r.fields.actions.foldl
    (fun st a =>
      if sel (ext.actionType a.Function) then
        { st with tx := ext.actionEvaluate a.Function r st.tx
                  trace := st.trace ++ [Event.action r a] }
      else st)
    st

/-- The test of line 324. -/
def isNondisruptive (t : RuleActionType) : Bool :=
  t = RuleActionType.ActionTypeNondisruptive

/-- The test of line 361. -/
def isDisruptiveOrFlow (t : RuleActionType) : Bool :=
  t = RuleActionType.ActionTypeDisruptive || t = RuleActionType.ActionTypeFlow

/-- Lines 208-225: the `RULE` collection is filled with the data of the rule. -/
def Rule.setRuleCollection (ext : Externals Tx) (r : Rule) (tx : Tx) : Tx :=
  let rid := if r.fields.Id = 0 then r.fields.ParentId else r.fields.Id
  ext.setData tx ext.vRule
    [("id", [toString rid]), ("msg", [r.fields.Msg]), ("rev", [r.fields.Rev]),
     ("logdata", [ext.MacroExpansion tx r.fields.LogData]),
     ("severity", [ext.severityString r.fields.Severity])]

/-- The slice `ecol` of line 244. -/
def Rule.ecol (ext : Externals Tx) (r : Rule) (tx : Tx) : List ruleVariableParams :=
  ext.ruleRemoveTargetById (r.setRuleCollection ext tx) r.fields.Id

/-- Lines 208-308: everything up to the test `len(matchedValues) == 0`. -/
def Rule.matchOwn (ext : Externals Tx) (r : Rule) (tx : Tx) : EvalState Tx :=
  let tx1 := r.setRuleCollection ext tx
  match r.fields.operator with
  | none =>
    { matchedValues := [{ Key := "", Value := "" }], tx := tx1, trace := [Event.evaluate r] }
  | some o =>
    Rule.evalVariables ext r o (r.ecol ext tx)
      { matchedValues := [], tx := tx1, trace := [Event.evaluate r] }

/-- Lines 320-327: announce the first match, then run the non-disruptive actions. -/
def Rule.afterMatch (ext : Externals Tx) (r : Rule) (st : EvalState Tx) : EvalState Tx :=
  let m0 := st.matchedValues.headD {}
  Rule.runActions ext r isNondisruptive
    { st with tx := ext.MatchVariable st.tx m0
              trace := st.trace ++ [Event.matchVariable r m0] }

/-- The `MatchedRule` built at lines 346-356. -/
def Rule.matchedRule (ext : Externals Tx) (r : Rule) (st : EvalState Tx) : MatchedRule :=
  { Rule := r
    MatchedData := st.matchedValues.headD {}
    Message := ext.MacroExpansion st.tx r.fields.Msg
    Data := ext.MacroExpansion st.tx r.fields.LogData
    Uri := ext.getFirstString st.tx ext.vRequestURI
    Id := ext.txId st.tx
    Disruptive := r.fields.Disruptive
    ServerIpAddress := ext.getFirstString st.tx ext.vServerAddr
    ClientIpAddress := ext.getFirstString st.tx ext.vRemoteAddr }

/-- Lines 343-366: the effects reserved to a rule with `ParentId == 0`. -/
def Rule.headEffects (ext : Externals Tx) (r : Rule) (st : EvalState Tx) : EvalState Tx :=
  if r.fields.ParentId = 0 then
    let st1 :=
      if r.fields.Log then
        { st with tx := ext.MatchRule st.tx (r.matchedRule ext st)
                  trace := st.trace ++ [Event.matchRule (r.matchedRule ext st)] }
      else st
    Rule.runActions ext r isDisruptiveOrFlow st1
  else st

mutual
/-- Go `Rule.Evaluate` (lines 207-373).  The result holds the returned slice, the
transaction after the call and the calls made during it. -/
def Rule.Evaluate (ext : Externals Tx) : Rule → Tx → EvalState Tx
  | .mk f chain, tx =>
    let own := Rule.matchOwn ext (Rule.mk f chain) tx
    if own.matchedValues.length = 0 then own
    else
      match Rule.evaluateChain ext chain (Rule.afterMatch ext (Rule.mk f chain) own) with
      | (false, st) => { st with matchedValues := [] }
      | (true, st) => Rule.headEffects ext (Rule.mk f chain) st
/-- Lines 329-342: the walk `for nr != nil` starting at `nr`.  The flag is false
when the walk stopped at `return []MatchData{}` (line 336). -/
def Rule.evaluateChain (ext : Externals Tx) : Option Rule → EvalState Tx → Bool × EvalState Tx
  | none, st => (true, st)
  | some (.mk f chain), st =>
    let m := Rule.Evaluate ext (Rule.mk f chain) st.tx
    if m.matchedValues.length = 0 then
      (false, { st with tx := m.tx, trace := st.trace ++ m.trace })
    else
      Rule.evaluateChain ext chain
        { matchedValues := st.matchedValues ++ m.matchedValues
          tx := m.tx
          trace := st.trace ++ m.trace }
end

/-- The rule that made a call: the receiver of the `Rule.Evaluate` activation the
call belongs to (for `tx.MatchRule`, the rule copied into the `MatchedRule`). -/
def Event.caller : Event → Rule
  | .evaluate r => r
  | .getField r _ => r
  | .operator r _ _ => r
  | .matchVariable r _ => r
  | .action r _ => r
  | .matchRule mr => mr.Rule

/-- A call to `tx.MatchRule`, or the evaluation of an action of type Disruptive or
Flow. -/
def Event.isHeadEffect (ext : Externals Tx) : Event → Bool
  | .matchRule _ => true
  | .action _ a => isDisruptiveOrFlow (ext.actionType a.Function)
  | _ => false

/-- A call made before the test of line 310: the entry of `Rule.Evaluate`, a call
to `tx.GetField` or a call to `executeOperator`. -/
def Event.isLookup : Event → Bool
  | .evaluate _ => true
  | .getField _ _ => true
  | .operator _ _ _ => true
  | _ => false

/-- The evaluation of an action. -/
def Event.isAction : Event → Bool
  | .action _ _ => true
  | _ => false

/-- A call to `tx.MatchRule`. -/
def Event.isMatchRule : Event → Bool
  | .matchRule _ => true
  | _ => false

mutual
/-- True when the walk of lines 332-341, at the rule `nr` with transaction `tx`,
meets from there on a chained rule whose evaluation returns the empty slice. -/
def Rule.walkFails (ext : Externals Tx) : Rule → Tx → Bool
  | .mk f c, tx =>
    let m := Rule.Evaluate ext (Rule.mk f c) tx
    if m.matchedValues.length = 0 then true else chainFails ext c m.tx
/-- True when the walk of lines 332-341, started at the pointer `nr` with
transaction `tx`, meets a chained rule whose evaluation returns the empty slice. -/
def chainFails (ext : Externals Tx) : Option Rule → Tx → Bool
  | none, _ => false
  | some r, tx => r.walkFails ext tx
end

mutual
/-- The matches the walk of lines 332-341 appends from the rule `nr` on: the list
`nr.Evaluate(tx)` returned, followed by what the rest of the walk appends; nothing
once an evaluation returns the empty slice. -/
def Rule.walkMatches (ext : Externals Tx) : Rule → Tx → List MatchData
  | .mk f c, tx =>
    let m := Rule.Evaluate ext (Rule.mk f c) tx
    if m.matchedValues.length = 0 then [] else m.matchedValues ++ chainMatches ext c m.tx
/-- The matches of the chained rules: the lists returned by the evaluations of
`nr`, `nr.Chain`, and so on, as the walk of lines 332-341 makes them, each on the
transaction the one before left, concatenated in that order. -/
def chainMatches (ext : Externals Tx) : Option Rule → Tx → List MatchData
  | none, _ => []
  | some r, tx => r.walkMatches ext tx
end

/-- The calls of lines 343-366, in order. -/
def headTail (ext : Externals Tx) (r : Rule) (st : EvalState Tx) : List Event :=
  if r.fields.ParentId = 0 then
    (if r.fields.Log then [Event.matchRule (r.matchedRule ext st)] else []) ++
      (r.fields.actions.filter (fun a => isDisruptiveOrFlow (ext.actionType a.Function))).map
        (Event.action r)
  else []

/-- The loop invariant of lines 245-307 for the rule `r`: every call so far is a
lookup made by `r`, and `matchedValues` is non-empty exactly when some call of
`executeOperator` returned true. -/
def OwnInv (r : Rule) (st : EvalState Tx) : Prop :=
  (∀ e ∈ st.trace, e.caller = r ∧ e.isLookup = true) ∧
  (st.matchedValues ≠ [] ↔ ∃ carg, Event.operator r carg true ∈ st.trace)

/-- The call `e` was made by one of the rules `rs`, and if it is a call to
`tx.MatchRule` or the evaluation of a Disruptive or Flow action, the rule that
made it has `ParentId == 0`. -/
def Event.within (ext : Externals Tx) (rs : List Rule) (e : Event) : Prop :=
  e.caller ∈ rs ∧ (e.isHeadEffect ext = true → e.caller.fields.ParentId = 0)

/-! ## The exception slices as laid out in memory

`Rule.Evaluate` stores into memory reachable from the rule at one place only:
`append(v.Exceptions, ...)` at line 250, where `v` is the loop copy of
`r.variables[i]`.  The copy has the same slice header as the element, so the two
share one backing array until `append` has to allocate.  The definitions below
keep the backing array in the model, to follow what these appends do to the
slice stored in the rule.  (Each element of `r.variables` has a backing array of
its own: `AddVariable` and `AddVariableNegation` build them one by one.) -/

/-- A Go slice with its backing array: `array` holds the cells from the first
element of the slice up to its capacity, `len` is the length.  Indexing, `len`
and `range` see the first `len` cells. -/
structure Slice (α : Type) where
  array : List α
  len : Nat

/-- The elements of a slice. -/
def Slice.toList {α : Type} (s : Slice α) : List α := s.array.take s.len

/-- The struct `ruleVariableParams` with `Exceptions` as a slice in memory. -/
structure ruleVariableParamsMem where
  Name : String := ""
  Count : Bool := false
  Variable : RuleVariable := 0
  KeyRx : Option Regexp := none
  KeyStr : String := ""
  Exceptions : Slice ruleVariableException

/-- The value of a `ruleVariableParams` in memory. -/
def ruleVariableParamsMem.value (m : ruleVariableParamsMem) : ruleVariableParams :=
  { Name := m.Name, Count := m.Count, Variable := m.Variable, KeyRx := m.KeyRx,
    KeyStr := m.KeyStr, Exceptions := m.Exceptions.toList }

/-- The state of one iteration of the loop at line 245: `stored` is
`r.variables[i].Exceptions`, `copy` is `v.Exceptions`, and `aliased` tells whether
`copy` still points into the backing array of `stored`. -/
structure LoopCopy where
  stored : Slice ruleVariableException
  copy : Slice ruleVariableException
  aliased : Bool

/-- The statement `v.Exceptions = append(v.Exceptions, x)`.  With spare capacity
`append` writes `x` into the backing array in place, which is also the array of
`stored` while the two are aliased.  Without, it allocates a new array of a
capacity `grow` chosen by the runtime, copies the elements and adds `x`; from
then on `copy` no longer aliases `stored`. -/
def LoopCopy.append (grow : Nat → Nat) (lc : LoopCopy) (x : ruleVariableException) : LoopCopy :=
  if lc.copy.len < lc.copy.array.length then
    { stored :=
        if lc.aliased then { lc.stored with array := lc.copy.array.set lc.copy.len x }
        else lc.stored
      copy := { array := lc.copy.array.set lc.copy.len x, len := lc.copy.len + 1 }
      aliased := lc.aliased }
  else
    { stored := lc.stored
      copy :=
        { array := lc.copy.toList ++ x ::
            List.replicate (grow (lc.copy.len + 1) - (lc.copy.len + 1)) ⟨"", none⟩
          len := lc.copy.len + 1 }
      aliased := false }

/-- Lines 245-252 in memory, for one element `m` of `r.variables`. -/
def mergeExceptionsMem (grow : Nat → Nat) (ecol : List ruleVariableParams)
    (m : ruleVariableParamsMem) : LoopCopy :=
  ecol.foldl
    (fun lc c =>
      if c.Variable = m.Variable then lc.append grow { KeyStr := c.KeyStr, KeyRx := none } else lc)
    { stored := m.Exceptions, copy := m.Exceptions, aliased := true }

/-- The elements of `r.variables` in memory after one call of `Rule.Evaluate` in
which `tx.ruleRemoveTargetById[r.Id]` was `ecol`. -/
def Rule.evaluateVariablesMem (grow : Nat → Nat) (ecol : List ruleVariableParams)
    (vars : List ruleVariableParamsMem) : List ruleVariableParamsMem :=
  vars.map (fun m => { m with Exceptions := (mergeExceptionsMem grow ecol m).stored })

/-- The elements of `r.variables` in memory after a sequence of calls of
`Rule.Evaluate`, given the value `tx.ruleRemoveTargetById[r.Id]` had in each. -/
def Rule.evaluateManyMem (grow : Nat → Nat) (ecols : List (List ruleVariableParams))
    (vars : List ruleVariableParamsMem) : List ruleVariableParamsMem :=
  ecols.foldl (fun vars ecol => Rule.evaluateVariablesMem grow ecol vars) vars

/-- The invariant of the appends of one iteration: `stored` shows the same
elements as at the start, `copy` is at least as long, and while aliased the two
have the same backing array. -/
def LoopCopy.Inv (s0 : Slice ruleVariableException) (lc : LoopCopy) : Prop :=
  lc.stored.len = s0.len ∧ lc.stored.toList = s0.toList ∧ s0.len ≤ lc.copy.len ∧
  (lc.aliased = true → lc.copy.array = lc.stored.array)

/-! ## The matches of a rule, as the specification words them

The list of matches written as the specification describes it: variable by
variable, value by value, candidate by candidate, keeping the candidates the
operator accepts.  The transaction is threaded through because an operator may
change it. -/

/-- The matches among the candidates `args` of the value `arg`, in order, and the
transaction after the operator has seen them all. -/
def specCandidateMatches (ext : Externals Tx) (o : ruleOperatorParams) (name : String)
    (arg : MatchData) : List String → Tx → List MatchData × Tx
  | [], tx => ([], tx)
  | carg :: rest, tx =>
    let res := Rule.executeOperator ext o carg tx
    let tl := specCandidateMatches ext o name arg rest res.2
    (if res.1 then
        { VariableName := name, Variable := arg.Variable, Key := arg.Key, Value := carg } :: tl.1
      else tl.1, tl.2)

/-- The matches among the values `tx.GetField` returned for one variable. -/
def specValueMatches (ext : Externals Tx) (r : Rule) (o : ruleOperatorParams) (name : String) :
    List MatchData → Tx → List MatchData × Tx
  | [], tx => ([], tx)
  | arg :: rest, tx =>
    let hd := specCandidateMatches ext o name arg (r.candidates arg.Value) tx
    let tl := specValueMatches ext r o name rest hd.2
    (hd.1 ++ tl.1, tl.2)

/-- The matches of the variables `vars`, in order. -/
def specVariableMatches (ext : Externals Tx) (r : Rule) (o : ruleOperatorParams)
    (ecol : List ruleVariableParams) : List ruleVariableParams → Tx → List MatchData × Tx
  | [], tx => ([], tx)
  | v0 :: rest, tx =>
    let v := mergeExceptions ecol v0
    let hd := specValueMatches ext r o (ext.varName v.Variable) (ext.GetField tx v) tx
    let tl := specVariableMatches ext r o ecol rest hd.2
    (hd.1 ++ tl.1, tl.2)

/-! ## The rule builder

`AddVariable`, `AddVariableNegation`, `ClearTransformations` and `SetOperator`
change the rule they are called on; here they return the changed rule. -/

/-- The argument `key interface{}` of `AddVariable` and `AddVariableNegation`, by
its dynamic type: a `string`, a (non-nil) `*regexp.Regexp`, the nil interface, or
a value of any other type, known by the name `%T` prints. -/
inductive KeyArg where
  | str (s : String)
  | regex (re : Regexp)
  | nil
  | other (typeName : String)
  deriving DecidableEq, Repr

/-- The errors the builder returns, by the message they are made from. -/
inductive RuleError where
  /-- Message `invalid key type %T` (line 398). -/
  | invalidKeyType (key : KeyArg)
  /-- Message `invalid variable negation key, it cannot be empty` (line 418). -/
  | emptyNegationKey
  /-- Message `invalid variable negation key, it cannot be an empty regex` (line 423). -/
  | emptyNegationRegex
  /-- Message `invalid negation input %s, %T` (line 428). -/
  | invalidNegationInput (key : KeyArg)
  /-- Message `cannot create a variable exception is the variable %q is not used`
  (line 438). -/
  | variableNotUsed (v : RuleVariable)
  deriving DecidableEq, Repr

/-- The rule `r` with its field `variables` replaced. -/
def Rule.setVariables (r : Rule) (vars : List ruleVariableParams) : Rule :=
  Rule.mk { r.fields with ruleVariables := vars } r.Chain

/-- Go `Rule.AddVariable` (lines 386-408): the rule after the call and the error
returned (`none` for `nil`).  `toLower` is `strings.ToLower`. -/
def Rule.AddVariable (toLower : String → String) (r : Rule) (v : RuleVariable) (key : KeyArg)
    (iscount : Bool) : Rule × Option RuleError :=
  let parsed : Except RuleError (Option Regexp × String) :=
    match key with
    | .regex re => .ok (some re, re.source)
    | .str s => .ok (none, toLower s)
    | .nil => .ok (none, "")
    | .other t => .error (RuleError.invalidKeyType (.other t))
  match parsed with
  | .error e => (r, some e)
  | .ok (re, str) =>
    (r.setVariables (r.fields.ruleVariables ++
      [{ Count := iscount, Variable := v, KeyStr := str, KeyRx := re, Exceptions := [] }]), none)

/-- Lines 430-436: the loop `for i, rv := range r.variables`, which stores the
changed copy back with `r.variables[i] = rv`.  The state is the slice and
`counter`. -/
def negationLoop (v : RuleVariable) (x : ruleVariableException)
    (vars : List ruleVariableParams) : List ruleVariableParams × Nat :=
  (List.range vars.length).foldl
    (fun (st : List ruleVariableParams × Nat) i =>
      match st.1[i]? with
      | some rv =>
        if rv.Variable = v then
          (st.1.set i { rv with Exceptions := rv.Exceptions ++ [x] }, st.2 + 1)
        else st
      | none => st)
    (vars, 0)

/-- Go `Rule.AddVariableNegation` (lines 410-441): the rule after the call and the
error returned (`none` for `nil`). -/
def Rule.AddVariableNegation (r : Rule) (v : RuleVariable) (key : KeyArg) :
    Rule × Option RuleError :=
  let parsed : Except RuleError (Option Regexp × String) :=
    match key with
    | .str st => if st = "" then .error RuleError.emptyNegationKey else .ok (none, st)
    | .regex re =>
      if re.source = "" then .error RuleError.emptyNegationRegex else .ok (some re, re.source)
    | k => .error (RuleError.invalidNegationInput k)
  match parsed with
  | .error e => (r, some e)
  | .ok (re, str) =>
    let res := negationLoop v { KeyStr := str, KeyRx := re } r.fields.ruleVariables
    if res.2 = 0 then (r.setVariables res.1, some (RuleError.variableNotUsed v))
    else (r.setVariables res.1, none)

/-- The entry `rv` with the exception `x` added at the end when its variable is
`v`, and `rv` itself otherwise. -/
def addException (v : RuleVariable) (x : ruleVariableException) (rv : ruleVariableParams) :
    ruleVariableParams :=
  if rv.Variable = v then { rv with Exceptions := rv.Exceptions ++ [x] } else rv

/-- Go `Rule.ClearTransformations` (lines 455-457). -/
def Rule.ClearTransformations (r : Rule) : Rule :=
  Rule.mk { r.fields with transformations := [] } r.Chain

/-- The test `len(function) > 0 && function[0] == '!'` of line 464.  The byte `!` is
never part of the encoding of another character, so the first byte is `!` exactly
when the first character is. -/
def startsWithBang (function : String) : Bool :=
  match function.data with
  | [] => false
  | c :: _ => c == '!'

/-- Go `Rule.SetOperator` (lines 459-466). -/
def Rule.SetOperator (r : Rule) (operator : RuleOperator) (function : String) (params : String) :
    Rule :=
  Rule.mk
    { r.fields with
      operator := some { Operator := operator, Function := function, Data := params,
                         Negation := startsWithBang function } }
    r.Chain

/-- The composition `tn(...t1(v))` of the transformations in declaration order, as
the specification writes the single-match result. -/
def composeInOrder : List ruleTransformationParams → String → String
  | [], v => v
  | t :: ts, v => composeInOrder ts (t.Function v)

/-- The exception injected for the entry `c` of `tx.ruleRemoveTargetById[r.Id]`. -/
def runtimeException (c : ruleVariableParams) : ruleVariableException :=
  { KeyStr := c.KeyStr, KeyRx := none }

/-- The `VariableSpec` of a call to `tx.GetField`, for other calls nothing. -/
def Event.getFieldSpec : Event → Option ruleVariableParams
  | .getField _ v => some v
  | _ => none

/-- A call to `tx.MatchVariable`. -/
def Event.isMatchVariable : Event → Bool
  | .matchVariable _ _ => true
  | _ => false

/-! ## The multipart body processor (`bodyprocessors/multipart.go`)

The Go standard library (`mime`, `mime/multipart`, `os`, `io`) is outside the
repository: what `Read` calls of it is a field of `MultipartLib`.  A Go `string`
taken from the body is a Lean `String`, and `len` is its number of bytes.
`int64` additions wrap around. -/

/-- The type `map[string][]string`, as the list of its entries; a key occurs once. -/
abbrev StringsMap := List (String × List String)

/-- The map index expression `m[k]`, with `none` for a missing key. -/
def StringsMap.get : StringsMap → String → Option (List String)
  | [], _ => none
  | (k1, v1) :: rest, k => if k1 = k then some v1 else StringsMap.get rest k

/-- The assignment `m[k] = v`. -/
def StringsMap.set : StringsMap → String → List String → StringsMap
  | [], k, v => [(k, v)]
  | (k1, v1) :: rest, k, v =>
    if k1 = k then (k, v) :: rest else (k1, v1) :: StringsMap.set rest k v

/-- The keys of a map. -/
def StringsMap.keys (m : StringsMap) : List String := m.map Prod.fst

/-- The type `CollectionsMap`, a `map[variables.RuleVariable]map[string][]string`.
`Read` builds it from a literal with these eight keys, so it is given as a record
of the eight entries. -/
structure CollectionsMap where
  FilesNames : StringsMap
  FilesTmpNames : StringsMap
  Files : StringsMap
  FilesSizes : StringsMap
  ArgsPostNames : StringsMap
  ArgsPost : StringsMap
  Args : StringsMap
  FilesCombinedSize : StringsMap
  deriving DecidableEq, Repr

/-- The struct `Options`. -/
structure Options where
  Mime : String
  StoragePath : String

/-- A `*multipart.Part`, by what `Read` asks of it: the header
`Content-Disposition` and `p.FormName()`.  `Tag` tells parts apart for the
library functions that read them. -/
structure Part where
  ContentDisposition : String
  FormName : String
  Tag : Nat := 0
  deriving DecidableEq, Repr

/-- The library functions `Read` calls, for a reader of type `Reader`. -/
structure MultipartLib (Reader : Type) where
  /-- Go `mime.ParseMediaType(v)`: the media type and the parameters (a missing
  parameter reads as the empty string), or an error. -/
  parseMediaType : String → Except String (String × (String → String))
  /-- The results of the successive calls `mr.NextPart()` for
  `mr := multipart.NewReader(reader, boundary)`, up to `io.EOF`: a part or an
  error each. -/
  nextParts : Reader → String → List (Except String Part)
  /-- Go `os.CreateTemp(storagePath, "crzmp*")` for the file number `n` of this
  call: the name of the file created, or an error. -/
  createTemp : String → Nat → Except String String
  /-- Go `io.Copy(temp, p)`: the number of bytes copied (an `int64`, not negative),
  or an error. -/
  copy : String → Part → Except String Nat
  /-- Go `io.ReadAll(p)`: the bytes of the part, or an error. -/
  readAll : Part → Except String String

/-- The struct `multipartBodyProcessor`; `collections` is a pointer, nil at first. -/
structure multipartBodyProcessor where
  collections : Option CollectionsMap
  deriving DecidableEq, Repr

/-- How a call of `Read` ends: `log.Fatal` terminates the process (`exit`), or the
call returns, with the processor as it then is and the error returned (`none` for
`nil`). -/
inductive ReadResult where
  | exit (message : String)
  | returned (mbp : multipartBodyProcessor) (err : Option String)
  deriving DecidableEq, Repr

/-- The two's complement wrap-around of `int64` arithmetic. -/
def int64 (x : Int) : Int :=
  (x + 9223372036854775808) % 18446744073709551616 - 9223372036854775808

/-- Go `fmt.Sprintf("%d", n)`. -/
def sprintfD (n : Int) : String := toString n

/-- True when the characters `s` begin with the characters `p`. -/
def beginsWithChars : List Char → List Char → Bool
  | _, [] => true
  | [], _ :: _ => false
  | c :: cs, p :: ps => c == p && beginsWithChars cs ps

/-- Go `strings.HasPrefix(s, p)`. -/
def beginsWith (s p : String) : Bool := beginsWithChars s.data p.data

/-- Go `originFileName` (lines 140-148). -/
def originFileName {Reader : Type} (lib : MultipartLib Reader) (p : Part) : String :=
  match lib.parseMediaType p.ContentDisposition with
  | .error _ => ""
  | .ok (_, dispositionParams) => dispositionParams "filename"

/-- The local variables of `Read` that its loop updates (lines 44-50). -/
structure ReadState where
  totalSize : Int := 0
  filesNames : List String := []
  filesArgNames : List String := []
  fileList : List String := []
  fileSizes : List String := []
  postNames : List String := []
  postFields : StringsMap := []
  deriving DecidableEq, Repr

/-- Lines 51-90: the loop over the parts, given the results of the calls
`mr.NextPart()`.  An error leaves the function with `return err`. -/
def readParts {Reader : Type} (lib : MultipartLib Reader) (storagePath : String) :
    List (Except String Part) → ReadState → Except String ReadState
  | [], st => .ok st
  | .error err :: _, _ => .error err
  | .ok p :: rest, st =>
    if originFileName lib p ≠ "" then
      match lib.createTemp storagePath st.fileList.length with
      | .error err => .error err
      | .ok temp =>
        match lib.copy temp p with
        | .error err => .error err
        | .ok sz =>
          readParts lib storagePath rest
            { st with
              totalSize := int64 (st.totalSize + sz)
              filesNames := st.filesNames ++ [originFileName lib p]
              fileList := st.fileList ++ [temp]
              fileSizes := st.fileSizes ++ [sprintfD sz]
              filesArgNames := st.filesArgNames ++ [p.FormName] }
    else
      match lib.readAll p with
      | .error err => .error err
      | .ok data =>
        readParts lib storagePath rest
          { st with
            totalSize := int64 (st.totalSize + data.utf8ByteSize)
            postNames := st.postNames ++ [p.FormName]
            postFields :=
              st.postFields.set p.FormName
                (((st.postFields.get p.FormName).getD []) ++ [data]) }

/-- Lines 91-94: the map `pn`. -/
def postNamesMap (postNames : List String) : StringsMap :=
  postNames.foldl (fun pn value => pn.set value [value]) []

/-- Lines 95-114: the collections built from the local variables. -/
def ReadState.collections (st : ReadState) : CollectionsMap :=
  { FilesNames := [("", st.filesArgNames)]
    FilesTmpNames := [("", st.fileList)]
    Files := [("", st.filesNames)]
    FilesSizes := [("", st.fileSizes)]
    ArgsPostNames := postNamesMap st.postNames
    ArgsPost := st.postFields
    Args := st.postFields
    FilesCombinedSize := [("", [sprintfD st.totalSize])] }

/-- Go `multipartBodyProcessor.Read` (lines 33-117). -/
def multipartBodyProcessor.Read {Reader : Type} (lib : MultipartLib Reader)
    (mbp : multipartBodyProcessor) (reader : Reader) (options : Options) : ReadResult :=
  match lib.parseMediaType options.Mime with
  | .error err => ReadResult.exit err
  | .ok (mediaType, params) =>
    if !beginsWith mediaType "multipart/" then
      ReadResult.returned mbp (some "not a multipart body")
    else
      match readParts lib options.StoragePath (lib.nextParts reader (params "boundary")) {} with
      | .error err => ReadResult.returned mbp (some err)
      | .ok st => ReadResult.returned { collections := some st.collections } none

/-- The number of bytes of all the values of a map. -/
def StringsMap.valueBytes (m : StringsMap) : Int :=
  ((m.flatMap Prod.snd).map (fun (v : String) => (v.utf8ByteSize : Int))).sum

/-- The field parts of a body, in body order, each with its form name and the
value read: the parts whose `originFileName` is empty. -/
def bodyFields {Reader : Type} (lib : MultipartLib Reader) :
    List (Except String Part) → List (String × String)
  | [] => []
  | .error _ :: rest => bodyFields lib rest
  | .ok p :: rest =>
    if originFileName lib p ≠ "" then bodyFields lib rest
    else
      match lib.readAll p with
      | .error _ => bodyFields lib rest
      | .ok data => (p.FormName, data) :: bodyFields lib rest

/-- The values of the fields called `name`, in body order. -/
def fieldValues (name : String) (fields : List (String × String)) : List String :=
  (fields.filter (fun f => f.1 = name)).map Prod.snd

/-- A map entry after the values `vs` have been appended to it one by one: as it
was when there is none, and otherwise the old values (none for a missing key)
followed by `vs`. -/
def appendValues (old : Option (List String)) (vs : List String) : Option (List String) :=
  if vs = [] then old else some (old.getD [] ++ vs)

/-! ## A small concrete setting

A transaction whose state is a counter of the effects applied to it, with
`ARGS["q"] = "attack"`, `REQUEST_URI = "/login"`, `ARGS_POST["p"] = " ATTACK "`
and `ARGS_POST["r"] = "other"`; three string-equality
operators; one action of each type. -/

/-- Operators 0, 1, 2 test equality with `attack`, `admin`, `/login`; actions 0, 1,
2 are of type Nondisruptive, Disruptive, Flow; variable 1 is `ARGS`, variable 2 is
`REQUEST_URI`, variable 6 is `ARGS_POST`. -/
def demoExt : Externals Nat where
  varName := fun v =>
    if v = 1 then "ARGS" else if v = 2 then "REQUEST_URI" else if v = 6 then "ARGS_POST" else ""
  vRule := 3
  vRequestURI := 2
  vServerAddr := 4
  vRemoteAddr := 5
  severityString := fun _ => ""
  txId := fun _ => "tx"
  MacroExpansion := fun _ text => text
  setData := fun tx _ _ => tx
  getFirstString := fun _ v => if v = 2 then "/login" else ""
  ruleRemoveTargetById := fun _ _ => []
  GetField := fun _ v =>
    if v.Variable = 1 then [{ VariableName := "ARGS", Variable := 1, Key := "q", Value := "attack" }]
    else if v.Variable = 2 then
      [{ VariableName := "REQUEST_URI", Variable := 2, Key := "", Value := "/login" }]
    else if v.Variable = 6 then
      [{ VariableName := "ARGS_POST", Variable := 6, Key := "p", Value := " ATTACK " },
       { VariableName := "ARGS_POST", Variable := 6, Key := "r", Value := "other" }]
    else []
  MatchVariable := fun tx _ => tx + 10
  MatchRule := fun tx _ => tx + 100
  operatorEvaluate := fun op tx data =>
    (if op = 0 then data == "attack" else if op = 1 then data == "admin" else data == "/login", tx)
  actionType := fun a =>
    if a = 0 then RuleActionType.ActionTypeNondisruptive
    else if a = 1 then RuleActionType.ActionTypeDisruptive
    else if a = 2 then RuleActionType.ActionTypeFlow
    else RuleActionType.ActionTypeOther a
  actionEvaluate := fun _ _ tx => tx + 1

/-- A chained rule `ARGS "@streq admin"`, which does not match in `demoExt`. -/
def demoChildAdmin : Rule :=
  Rule.mk { ruleVariables := [{ Variable := 1 }], operator := some ⟨1, "@streq", "admin", false⟩,
            ParentId := 10, actions := [⟨"setvar", 0⟩, ⟨"deny", 1⟩] } none

/-- A chained rule `ARGS "@streq attack"`, which matches in `demoExt`. -/
def demoChildAttack : Rule :=
  Rule.mk { ruleVariables := [{ Variable := 1 }], operator := some ⟨0, "@streq", "attack", false⟩,
            ParentId := 10, actions := [⟨"setvar", 0⟩, ⟨"deny", 1⟩] } none

/-- The fields of the head `REQUEST_URI "@streq /login" "id:10,log,setvar,deny,skip,chain"`. -/
def demoHeadFields : RuleFields :=
  { ruleVariables := [{ Variable := 2 }], operator := some ⟨2, "@streq", "/login", false⟩,
    Id := 10, Log := true, actions := [⟨"setvar", 0⟩, ⟨"deny", 1⟩, ⟨"skip", 2⟩] }

/-- The head chained to a rule that does not match. -/
def demoHeadFail : Rule := Rule.mk demoHeadFields (some demoChildAdmin)

/-- The head chained to a rule that matches. -/
def demoHeadOk : Rule := Rule.mk demoHeadFields (some demoChildAttack)

/-- The rule `SecAction "id:1,log,setvar,deny"`: no operator, no variables. -/
def demoSecAction : Rule :=
  Rule.mk { Id := 1, Log := true, actions := [⟨"setvar", 0⟩, ⟨"deny", 1⟩] } none

/-- A rule without operator chained to a rule that matches. -/
def demoSecActionChainOk : Rule :=
  Rule.mk { Id := 10, Log := true, actions := [⟨"setvar", 0⟩, ⟨"deny", 1⟩] } (some demoChildAttack)

/-- A rule on variable 7, for which `demoExt` has no value, chained to a rule that
would match. -/
def demoSelectsNothing : Rule :=
  Rule.mk { ruleVariables := [{ Variable := 7 }, { Variable := 8, KeyStr := "k" }],
            operator := some ⟨0, "@streq", "attack", false⟩,
            actions := [⟨"setvar", 0⟩, ⟨"deny", 1⟩], Id := 3 }
    (some demoChildAttack)

/-- The transformation `lowercase`. -/
def demoLowercase (s : String) : String := String.mk (s.data.map Char.toLower)

/-- The transformation `trim`, for blanks. -/
def demoTrim (s : String) : String :=
  String.mk (((s.data.dropWhile (fun c => c == ' ')).reverse.dropWhile (fun c => c == ' ')).reverse)

/-- The rule `ARGS_POST "@streq attack" "id:4,t:lowercase,t:trim,multiMatch"`. -/
def demoMultiMatch : Rule :=
  Rule.mk { ruleVariables := [{ Variable := 6 }], operator := some ⟨0, "@streq", "attack", false⟩,
            transformations := [⟨"lowercase", demoLowercase⟩, ⟨"trim", demoTrim⟩],
            MultiMatch := true, Id := 4 } none

/-- The rule `ARGS "!@streq attack" "id:5,log,deny"`: the operator is negated. -/
def demoNegated : Rule :=
  Rule.mk { ruleVariables := [{ Variable := 1 }], operator := some ⟨0, "!@streq", "attack", true⟩,
            Log := true, actions := [⟨"deny", 1⟩], Id := 5 } none

/-- The last rule of a chain of two: `ARGS_POST "@streq attack"
"t:lowercase,t:trim,setvar"`, marked `c2` in `Raw`. -/
def demoSecond : Rule :=
  Rule.mk { ruleVariables := [{ Variable := 6 }], operator := some ⟨0, "@streq", "attack", false⟩,
            transformations := [⟨"lowercase", demoLowercase⟩, ⟨"trim", demoTrim⟩],
            ParentId := 10, Raw := "c2", actions := [⟨"setvar", 0⟩] } none

/-- The first chained rule of a chain of two: `ARGS "@streq attack" "chain"`, marked
`c1` in `Raw`. -/
def demoFirst : Rule :=
  Rule.mk { ruleVariables := [{ Variable := 1 }], operator := some ⟨0, "@streq", "attack", false⟩,
            ParentId := 10, Raw := "c1", actions := [⟨"setvar", 0⟩] } (some demoSecond)

/-- The head `REQUEST_URI "@streq /login" "id:10,log,setvar,deny,skip,chain"` with the
chain `c1`, `c2`; every rule of it matches in `demoExt`. -/
def demoChainOfTwo : Rule := Rule.mk demoHeadFields (some demoFirst)

/-- The entry of `Rule.Evaluate` on a rule whose `Raw` is `raw`. -/
def Event.entersRaw (raw : String) : Event → Bool
  | .evaluate r => r.fields.Raw == raw
  | _ => false

/-- The evaluation of an action of a rule whose `Raw` is `raw`. -/
def Event.actsRaw (raw : String) : Event → Bool
  | .action r _ => r.fields.Raw == raw
  | _ => false

/-- A library for a reader that is already cut into parts.  It knows a few media
types and dispositions; an empty boundary makes `NextPart` fail, as in Go.  The
part with `Tag` 1 has five bytes, the part with `Tag` 2 holds `1`. -/
def demoLib : MultipartLib (List (Except String Part)) where
  parseMediaType := fun v =>
    if v = "multipart/form-data; boundary=X" then
      .ok ("multipart/form-data", fun k => if k = "boundary" then "X" else "")
    else if v = "multipart/form-data" then .ok ("multipart/form-data", fun _ => "")
    else if v = "text/plain" then .ok ("text/plain", fun _ => "")
    else if v = "form-data; name=f; filename=a.txt" then
      .ok ("form-data", fun k => if k = "filename" then "a.txt" else if k = "name" then "f" else "")
    else if v = "form-data; name=n" then
      .ok ("form-data", fun k => if k = "name" then "n" else "")
    else .error "mime: no media type"
  nextParts := fun reader boundary =>
    if boundary = "" then [.error "multipart: boundary is empty"] else reader
  createTemp := fun dir n => .ok (dir ++ "/crzmp" ++ toString n)
  copy := fun _ p => .ok (if p.Tag = 1 then 5 else 0)
  readAll := fun p => .ok (if p.Tag = 2 then "1" else "")

/-- The body of scenario 7: the file `a.txt` of five bytes in the field `f`, and the
field `n=1`. -/
def demoBody : List (Except String Part) :=
  [.ok { ContentDisposition := "form-data; name=f; filename=a.txt", FormName := "f", Tag := 1 },
   .ok { ContentDisposition := "form-data; name=n", FormName := "n", Tag := 2 }]

/-- The form names of the field parts of a body, in body order, whatever reading
them gives. -/
def fieldPartNames {Reader : Type} (lib : MultipartLib Reader) :
    List (Except String Part) → List String
  | [] => []
  | .error _ :: rest => fieldPartNames lib rest
  | .ok p :: rest =>
    if originFileName lib p ≠ "" then fieldPartNames lib rest
    else p.FormName :: fieldPartNames lib rest

/-- The setting `demoExt` with three targets removed at run time from rule 10: the
keys `a` and `c` of variable 2 and the key `b` of variable 1. -/
def demoExtTargets : Externals Nat :=
  { demoExt with
    ruleRemoveTargetById := fun _ id =>
      if id = 10 then
        [{ Variable := 2, KeyStr := "a" }, { Variable := 1, KeyStr := "b" },
         { Variable := 2, KeyStr := "c" }]
      else [] }

/-- The rule 10 on three variables, the first with a compiled exception `x`. -/
def demoTargeted : Rule :=
  Rule.mk { ruleVariables := [{ Variable := 2, Exceptions := [⟨"x", none⟩] },
                              { Variable := 1, KeyStr := "q" }, { Variable := 3 }],
            operator := some ⟨2, "@streq", "/login", false⟩, Id := 10,
            actions := [⟨"setvar", 0⟩] } none

/-! ## Theorems -/

section Lemmas

theorem chainRules_none : chainRules none = [] := by
  rw [chainRules]

theorem chainRules_some_mk (f : RuleFields) (c : Option Rule) :
    chainRules (some (Rule.mk f c)) = Rule.mk f c :: chainRules c := by
  rw [chainRules, Rule.selfAndChained]

theorem chainFails_none (ext : Externals Tx) (tx : Tx) : chainFails ext none tx = false := by
  rw [chainFails]

theorem chainFails_some_mk (ext : Externals Tx) (f : RuleFields) (c : Option Rule) (tx : Tx) :
    chainFails ext (some (Rule.mk f c)) tx =
      if (Rule.Evaluate ext (Rule.mk f c) tx).matchedValues.length = 0 then true
      else chainFails ext c (Rule.Evaluate ext (Rule.mk f c) tx).tx := by
  rw [chainFails, Rule.walkFails]

theorem foldl_preserves {α β : Type} (I : β → Prop) (f : β → α → β)
    (h : ∀ b a, I b → I (f b a)) (l : List α) (b : β) (hb : I b) : I (l.foldl f b) := by
  induction l generalizing b with
  | nil => exact hb
  | cons a l ih => exact ih (f b a) (h b a hb)

theorem runActions_matchedValues (ext : Externals Tx) (r : Rule) (sel : RuleActionType → Bool)
    (st : EvalState Tx) : (Rule.runActions ext r sel st).matchedValues = st.matchedValues := by
  unfold Rule.runActions
  refine foldl_preserves (fun s => s.matchedValues = st.matchedValues) _ ?_ _ st rfl
  intro b a hb
  by_cases hs : sel (ext.actionType a.Function) = true <;> simp [hs, hb]

theorem runActions_trace_aux (ext : Externals Tx) (r : Rule) (sel : RuleActionType → Bool)
    (as : List ruleActionParams) (st : EvalState Tx) :
    (as.foldl
      (fun st a =>
        if sel (ext.actionType a.Function) then
          { st with tx := ext.actionEvaluate a.Function r st.tx
                    trace := st.trace ++ [Event.action r a] }
        else st) st).trace
      = st.trace ++ (as.filter (fun a => sel (ext.actionType a.Function))).map (Event.action r) := by
  induction as generalizing st with
  | nil => simp
  | cons a as ih =>
    rw [List.foldl_cons, ih]
    by_cases hs : sel (ext.actionType a.Function) = true <;> simp [hs]

theorem runActions_trace (ext : Externals Tx) (r : Rule) (sel : RuleActionType → Bool)
    (st : EvalState Tx) :
    (Rule.runActions ext r sel st).trace
      = st.trace ++
        (r.fields.actions.filter (fun a => sel (ext.actionType a.Function))).map (Event.action r) :=
  runActions_trace_aux ext r sel r.fields.actions st

theorem evalCandidates_inv (ext : Externals Tx) (r : Rule) (o : ruleOperatorParams)
    (v : ruleVariableParams) (arg : MatchData) (args : List String) (st : EvalState Tx)
    (h : OwnInv r st) : OwnInv r (Rule.evalCandidates ext r o v arg args st) := by
  unfold Rule.evalCandidates
  refine foldl_preserves (OwnInv r) _ ?_ args st h
  intro b carg hb
  obtain ⟨hb1, hb2⟩ := hb
  constructor
  · intro e he
    simp only [List.mem_append, List.mem_singleton] at he
    rcases he with he | he
    · exact hb1 e he
    · subst he; exact ⟨rfl, rfl⟩
  · cases hres : (Rule.executeOperator ext o carg b.tx).1
    · simp only [hres, Bool.false_eq_true, if_false, List.mem_append, List.mem_singleton]
      rw [hb2]
      constructor
      · rintro ⟨c, hc⟩; exact ⟨c, Or.inl hc⟩
      · rintro ⟨c, hc | hc⟩
        · exact ⟨c, hc⟩
        · simp at hc
    · simp only [hres, if_true, List.mem_append, List.mem_singleton]
      constructor
      · intro _; exact ⟨carg, Or.inr rfl⟩
      · intro _; simp

theorem evalValues_inv (ext : Externals Tx) (r : Rule) (o : ruleOperatorParams)
    (v : ruleVariableParams) (values : List MatchData) (st : EvalState Tx)
    (h : OwnInv r st) : OwnInv r (Rule.evalValues ext r o v values st) := by
  unfold Rule.evalValues
  exact foldl_preserves (OwnInv r) _
    (fun b arg hb => evalCandidates_inv ext r o v arg _ b hb) values st h

theorem evalVariables_inv (ext : Externals Tx) (r : Rule) (o : ruleOperatorParams)
    (ecol : List ruleVariableParams) (st : EvalState Tx)
    (h : OwnInv r st) : OwnInv r (Rule.evalVariables ext r o ecol st) := by
  unfold Rule.evalVariables
  refine foldl_preserves (OwnInv r) _ ?_ _ st h
  intro b v0 hb
  have hb' : OwnInv r { b with trace := b.trace ++ [Event.getField r (mergeExceptions ecol v0)] } := by
    obtain ⟨hb1, hb2⟩ := hb
    constructor
    · intro e he
      simp only [List.mem_append, List.mem_singleton] at he
      rcases he with he | he
      · exact hb1 e he
      · subst he; exact ⟨rfl, rfl⟩
    · simp only [List.mem_append, List.mem_singleton]
      rw [hb2]
      constructor
      · rintro ⟨c, hc⟩; exact ⟨c, Or.inl hc⟩
      · rintro ⟨c, hc | hc⟩
        · exact ⟨c, hc⟩
        · simp at hc
  by_cases hv : (ext.GetField b.tx (mergeExceptions ecol v0)).length = 0
  · simp only [hv, if_true]; exact hb'
  · simp only [hv, if_false]; exact evalValues_inv ext r o _ _ _ hb'

/-- Every call `r` makes before the test of line 310 is a lookup of `r`. -/
theorem matchOwn_trace (ext : Externals Tx) (r : Rule) (tx : Tx) :
    ∀ e ∈ (Rule.matchOwn ext r tx).trace, e.caller = r ∧ e.isLookup = true := by
  unfold Rule.matchOwn
  cases hop : r.fields.operator with
  | none =>
    intro e he
    simp only [List.mem_singleton] at he
    subst he; exact ⟨rfl, rfl⟩
  | some o =>
    refine (evalVariables_inv ext r o _ _ ?_).1
    constructor
    · intro e he
      simp only [List.mem_singleton] at he
      subst he; exact ⟨rfl, rfl⟩
    · simp

/-- With an operator, the own matches of `r` are non-empty exactly when one of its
calls of `executeOperator` returned true. -/
theorem matchOwn_ne_nil_iff (ext : Externals Tx) (r : Rule) (tx : Tx) (o : ruleOperatorParams)
    (hop : r.fields.operator = some o) :
    (Rule.matchOwn ext r tx).matchedValues ≠ [] ↔
      ∃ carg, Event.operator r carg true ∈ (Rule.matchOwn ext r tx).trace := by
  unfold Rule.matchOwn
  rw [hop]
  refine (evalVariables_inv ext r o _ _ ?_).2
  constructor
  · intro e he
    simp only [List.mem_singleton] at he
    subst he; exact ⟨rfl, rfl⟩
  · simp

theorem afterMatch_matchedValues (ext : Externals Tx) (r : Rule) (st : EvalState Tx) :
    (Rule.afterMatch ext r st).matchedValues = st.matchedValues := by
  unfold Rule.afterMatch
  rw [runActions_matchedValues]

theorem afterMatch_trace (ext : Externals Tx) (r : Rule) (st : EvalState Tx) :
    (Rule.afterMatch ext r st).trace
      = st.trace ++ Event.matchVariable r (st.matchedValues.headD {}) ::
          (r.fields.actions.filter (fun a => isNondisruptive (ext.actionType a.Function))).map
            (Event.action r) := by
  unfold Rule.afterMatch
  rw [runActions_trace]
  simp

theorem headEffects_matchedValues (ext : Externals Tx) (r : Rule) (st : EvalState Tx) :
    (Rule.headEffects ext r st).matchedValues = st.matchedValues := by
  unfold Rule.headEffects
  by_cases hp : r.fields.ParentId = 0
  · simp only [hp, if_true]
    rw [runActions_matchedValues]
    by_cases hl : r.fields.Log = true <;> simp [hl]
  · simp [hp]

theorem headEffects_trace (ext : Externals Tx) (r : Rule) (st : EvalState Tx) :
    (Rule.headEffects ext r st).trace = st.trace ++ headTail ext r st := by
  unfold Rule.headEffects headTail
  by_cases hp : r.fields.ParentId = 0
  · simp only [hp, if_true]
    rw [runActions_trace]
    by_cases hl : r.fields.Log = true <;> simp [hl]
  · simp [hp]

theorem isLookup_not_headEffect (ext : Externals Tx) (e : Event) (h : e.isLookup = true) :
    e.isHeadEffect ext = false := by
  cases e <;> simp_all [Event.isLookup, Event.isHeadEffect]

theorem nondisruptive_not_disruptiveOrFlow (t : RuleActionType) (h : isNondisruptive t = true) :
    isDisruptiveOrFlow t = false := by
  cases t <;> simp_all [isNondisruptive, isDisruptiveOrFlow]

/-- Induction over a rule and its chain. -/
theorem Rule.chain_induction {P : Rule → Prop} {Q : Option Rule → Prop}
    (hnone : Q none)
    (hsome : ∀ f c, P (Rule.mk f c) → Q c → Q (some (Rule.mk f c)))
    (hmk : ∀ f c, Q c → P (Rule.mk f c)) :
    (∀ r, P r) ∧ (∀ nr, Q nr) := by
  have key : ∀ r : Rule, P r ∧ Q r.Chain := fun r =>
    Rule.rec (motive_1 := fun r => P r ∧ Q r.Chain) (motive_2 := Q)
      (fun f c ih => ⟨hmk f c ih, ih⟩) hnone
      (fun r ih => by cases r with | mk f c => exact hsome f c ih.1 ih.2) r
  refine ⟨fun r => (key r).1, fun nr => ?_⟩
  cases nr with
  | none => exact hnone
  | some r => cases r with | mk f c => exact hsome f c (key (Rule.mk f c)).1 (key (Rule.mk f c)).2

/-- The body of `Rule.Evaluate`, for a rule given as a whole. -/
theorem Rule.Evaluate_eq (ext : Externals Tx) (r : Rule) (tx : Tx) :
    Rule.Evaluate ext r tx =
      if (Rule.matchOwn ext r tx).matchedValues.length = 0 then Rule.matchOwn ext r tx
      else if (Rule.evaluateChain ext r.Chain
                (Rule.afterMatch ext r (Rule.matchOwn ext r tx))).1 = true then
        Rule.headEffects ext r
          (Rule.evaluateChain ext r.Chain (Rule.afterMatch ext r (Rule.matchOwn ext r tx))).2
      else
        { (Rule.evaluateChain ext r.Chain
            (Rule.afterMatch ext r (Rule.matchOwn ext r tx))).2 with matchedValues := [] } := by
  cases r with
  | mk f c =>
    rw [Rule.Evaluate.eq_1]
    by_cases h0 : (Rule.matchOwn ext (Rule.mk f c) tx).matchedValues.length = 0
    · simp only [h0, if_true]
    · simp only [h0, if_false, Rule.Chain]
      rcases hch : Rule.evaluateChain ext c
        (Rule.afterMatch ext (Rule.mk f c) (Rule.matchOwn ext (Rule.mk f c) tx)) with ⟨b, st⟩
      cases b <;> simp

theorem Event.within_mono (ext : Externals Tx) {rs rs' : List Rule} {e : Event}
    (hsub : ∀ r ∈ rs, r ∈ rs') (h : e.within ext rs) : e.within ext rs' :=
  ⟨hsub _ h.1, h.2⟩

theorem within_of_lookup (ext : Externals Tx) (r : Rule) (rs : List Rule) (e : Event)
    (hc : e.caller = r) (hl : e.isLookup = true) : e.within ext (r :: rs) := by
  refine ⟨by simp [hc], fun hh => ?_⟩
  rw [isLookup_not_headEffect ext e hl] at hh
  exact absurd hh (by simp)

theorem within_afterMatch (ext : Externals Tx) (r : Rule) (rs : List Rule) (md : MatchData)
    (e : Event)
    (he : e ∈ Event.matchVariable r md ::
      (r.fields.actions.filter (fun a => isNondisruptive (ext.actionType a.Function))).map
        (Event.action r)) : e.within ext (r :: rs) ∧ e.isHeadEffect ext = false := by
  simp only [List.mem_cons, List.mem_map, List.mem_filter] at he
  rcases he with he | ⟨a, ⟨_, ha⟩, rfl⟩
  · subst he
    exact ⟨⟨by simp [Event.caller], fun hh => by simp [Event.isHeadEffect] at hh⟩, rfl⟩
  · have hnd := nondisruptive_not_disruptiveOrFlow _ ha
    exact ⟨⟨by simp [Event.caller], fun hh => by simp [Event.isHeadEffect, hnd] at hh⟩,
      by simp [Event.isHeadEffect, hnd]⟩

theorem within_headTail (ext : Externals Tx) (r : Rule) (rs : List Rule) (st : EvalState Tx)
    (e : Event) (he : e ∈ headTail ext r st) : e.within ext (r :: rs) := by
  unfold headTail at he
  by_cases hp : r.fields.ParentId = 0
  · simp only [hp, if_true, List.mem_append, List.mem_map, List.mem_filter] at he
    rcases he with he | ⟨a, _, rfl⟩
    · by_cases hl : r.fields.Log = true
      · simp only [hl, if_true, List.mem_singleton] at he
        subst he
        exact ⟨by simp [Event.caller, Rule.matchedRule], fun _ => by
          simpa [Event.caller, Rule.matchedRule] using hp⟩
      · simp [hl] at he
    · exact ⟨by simp [Event.caller], fun _ => by simpa [Event.caller] using hp⟩
  · simp [hp] at he

/-- What the chain walk adds to the state, by whom each call is made, and when it
stops early. -/
theorem evaluate_chain_spec (ext : Externals Tx) :
    (∀ r : Rule, ∀ tx : Tx, ∀ e ∈ (Rule.Evaluate ext r tx).trace,
        e.within ext (r :: chainRules r.Chain)) ∧
    (∀ nr : Option Rule, ∀ st : EvalState Tx, ∃ ms tr,
        (Rule.evaluateChain ext nr st).2.matchedValues = st.matchedValues ++ ms ∧
        (Rule.evaluateChain ext nr st).2.trace = st.trace ++ tr ∧
        (∀ e ∈ tr, e.within ext (chainRules nr)) ∧
        (Rule.evaluateChain ext nr st).1 = !chainFails ext nr st.tx) := by
  apply Rule.chain_induction
  · intro st
    exact ⟨[], [], by simp [Rule.evaluateChain], by simp [Rule.evaluateChain],
      by simp, by simp [Rule.evaluateChain, chainFails_none]⟩
  · intro f c hP hQ st
    rw [Rule.evaluateChain.eq_2, chainFails_some_mk]
    by_cases h0 : (Rule.Evaluate ext (Rule.mk f c) st.tx).matchedValues.length = 0
    · simp only [h0, if_true]
      refine ⟨[], (Rule.Evaluate ext (Rule.mk f c) st.tx).trace, by simp, rfl, ?_, by simp⟩
      intro e he
      have := hP st.tx e he
      simpa [chainRules_some_mk, Rule.Chain] using this
    · simp only [h0, if_false]
      obtain ⟨ms, tr, h1, h2, h3, h4⟩ := hQ
        { matchedValues := st.matchedValues ++ (Rule.Evaluate ext (Rule.mk f c) st.tx).matchedValues
          tx := (Rule.Evaluate ext (Rule.mk f c) st.tx).tx
          trace := st.trace ++ (Rule.Evaluate ext (Rule.mk f c) st.tx).trace }
      refine ⟨(Rule.Evaluate ext (Rule.mk f c) st.tx).matchedValues ++ ms,
        (Rule.Evaluate ext (Rule.mk f c) st.tx).trace ++ tr, ?_, ?_, ?_, ?_⟩
      · rw [h1]; simp
      · rw [h2]; simp
      · intro e he
        simp only [List.mem_append] at he
        rcases he with he | he
        · have := hP st.tx e he
          simpa [chainRules_some_mk, Rule.Chain] using this
        · exact Event.within_mono ext (fun r hr => by simp [chainRules_some_mk, hr]) (h3 e he)
      · rw [h4]
  · intro f c hQ tx e he
    rw [Rule.Evaluate_eq] at he
    by_cases h0 : (Rule.matchOwn ext (Rule.mk f c) tx).matchedValues.length = 0
    · simp only [h0, if_true] at he
      obtain ⟨hc, hl⟩ := matchOwn_trace ext _ tx e he
      exact within_of_lookup ext _ _ e hc hl
    · simp only [h0, if_false] at he
      obtain ⟨ms, tr, h1, h2, h3, h4⟩ :=
        hQ (Rule.afterMatch ext (Rule.mk f c) (Rule.matchOwn ext (Rule.mk f c) tx))
      have hpre : ∀ e ∈ (Rule.evaluateChain ext c
          (Rule.afterMatch ext (Rule.mk f c) (Rule.matchOwn ext (Rule.mk f c) tx))).2.trace,
          e.within ext (Rule.mk f c :: chainRules c) := by
        intro e he
        rw [h2, afterMatch_trace] at he
        simp only [List.mem_append] at he
        rcases he with (he | he) | he
        · obtain ⟨hc, hl⟩ := matchOwn_trace ext _ tx e he
          exact within_of_lookup ext _ _ e hc hl
        · exact (within_afterMatch ext _ _ _ e he).1
        · exact Event.within_mono ext (fun r hr => by simp [hr]) (h3 e he)
      simp only [Rule.Chain] at he ⊢
      by_cases hb : (Rule.evaluateChain ext c
          (Rule.afterMatch ext (Rule.mk f c) (Rule.matchOwn ext (Rule.mk f c) tx))).1 = true
      · simp only [hb, if_true] at he
        rw [headEffects_trace] at he
        simp only [List.mem_append] at he
        rcases he with he | he
        · exact hpre e he
        · exact within_headTail ext _ _ _ e he
      · simp only [hb] at he
        exact hpre e he

theorem chainRules_depth :
    ∀ nr : Option Rule, ∀ d ∈ chainRules nr,
      (chainRules d.Chain).length < (chainRules nr).length := by
  refine (Rule.chain_induction (P := fun _ => True) ?_ ?_ ?_).2
  · intro d hd
    simp [chainRules_none] at hd
  · intro f c _ hQ d hd
    simp only [chainRules_some_mk, List.mem_cons] at hd
    rcases hd with hd | hd
    · subst hd
      simp [chainRules_some_mk, Rule.Chain]
    · have := hQ d hd
      simp only [chainRules_some_mk, List.length_cons]
      omega
  · intros; trivial

/-- A rule is not one of its own chained rules. -/
theorem Rule.not_mem_chained (r : Rule) : r ∉ chainRules r.Chain := by
  intro h
  exact absurd (chainRules_depth r.Chain r h) (Nat.lt_irrefl _)

/-- The shape of an evaluation whose own stage matched. -/
theorem Evaluate_decompose (ext : Externals Tx) (r : Rule) (tx : Tx)
    (h0 : (Rule.matchOwn ext r tx).matchedValues ≠ []) :
    ∃ ms tr,
      (Rule.evaluateChain ext r.Chain
          (Rule.afterMatch ext r (Rule.matchOwn ext r tx))).2.matchedValues
        = (Rule.matchOwn ext r tx).matchedValues ++ ms ∧
      (Rule.evaluateChain ext r.Chain
          (Rule.afterMatch ext r (Rule.matchOwn ext r tx))).2.trace
        = (Rule.matchOwn ext r tx).trace ++
            Event.matchVariable r ((Rule.matchOwn ext r tx).matchedValues.headD {}) ::
            (r.fields.actions.filter
              (fun a => isNondisruptive (ext.actionType a.Function))).map (Event.action r) ++ tr ∧
      (∀ e ∈ tr, e.within ext (chainRules r.Chain)) ∧
      (Rule.evaluateChain ext r.Chain (Rule.afterMatch ext r (Rule.matchOwn ext r tx))).1
        = !chainFails ext r.Chain (Rule.afterMatch ext r (Rule.matchOwn ext r tx)).tx ∧
      Rule.Evaluate ext r tx =
        if (Rule.evaluateChain ext r.Chain
              (Rule.afterMatch ext r (Rule.matchOwn ext r tx))).1 = true then
          Rule.headEffects ext r
            (Rule.evaluateChain ext r.Chain (Rule.afterMatch ext r (Rule.matchOwn ext r tx))).2
        else
          { (Rule.evaluateChain ext r.Chain
              (Rule.afterMatch ext r (Rule.matchOwn ext r tx))).2 with matchedValues := [] } := by
  obtain ⟨ms, tr, h1, h2, h3, h4⟩ :=
    (evaluate_chain_spec ext).2 r.Chain (Rule.afterMatch ext r (Rule.matchOwn ext r tx))
  refine ⟨ms, tr, ?_, ?_, h3, h4, ?_⟩
  · rw [h1, afterMatch_matchedValues]
  · rw [h2, afterMatch_trace]
  · rw [Rule.Evaluate_eq]
    have : ¬ (Rule.matchOwn ext r tx).matchedValues.length = 0 := by
      simpa [List.length_eq_zero] using h0
    simp only [this, if_false]

/-- An evaluation returns a non-empty slice exactly when the rule itself matched
and no chained rule evaluated by the walk returned the empty slice. -/
theorem Evaluate_ne_nil_iff (ext : Externals Tx) (r : Rule) (tx : Tx) :
    (Rule.Evaluate ext r tx).matchedValues ≠ [] ↔
      (Rule.matchOwn ext r tx).matchedValues ≠ [] ∧
      chainFails ext r.Chain (Rule.afterMatch ext r (Rule.matchOwn ext r tx)).tx = false := by
  by_cases h0 : (Rule.matchOwn ext r tx).matchedValues = []
  · have : (Rule.Evaluate ext r tx) = Rule.matchOwn ext r tx := by
      rw [Rule.Evaluate_eq]; simp [h0]
    rw [this]; simp [h0]
  · obtain ⟨ms, tr, h1, _, _, h4, h5⟩ := Evaluate_decompose ext r tx h0
    rw [h5]
    cases hf : chainFails ext r.Chain (Rule.afterMatch ext r (Rule.matchOwn ext r tx)).tx
    · rw [hf] at h4
      simp only [Bool.not_false] at h4
      simp only [h4, if_true, headEffects_matchedValues, h1]
      simp [h0]
    · rw [hf] at h4
      simp only [Bool.not_true] at h4
      simp [h4]

/-- A failing chain walk makes the evaluation return the empty slice. -/
theorem chain_failure_returns_empty_aux (ext : Externals Tx) (r : Rule) (tx : Tx)
    (hfail : chainFails ext r.Chain
      (Rule.afterMatch ext r (Rule.matchOwn ext r tx)).tx = true) :
    (Rule.Evaluate ext r tx).matchedValues = [] := by
  by_contra hne
  have := ((Evaluate_ne_nil_iff ext r tx).1 hne).2
  rw [hfail] at this
  exact absurd this (by simp)

/-- When every `tx.GetField` call of the loop returns no value, the loop only
makes those calls. -/
theorem evalVariables_all_empty (ext : Externals Tx) (r : Rule) (o : ruleOperatorParams)
    (ecol : List ruleVariableParams) (vars : List ruleVariableParams) (st : EvalState Tx)
    (h : ∀ v ∈ vars, ext.GetField st.tx (mergeExceptions ecol v) = []) :
    vars.foldl
      (fun st v0 =>
        if (ext.GetField st.tx (mergeExceptions ecol v0)).length = 0 then
          { st with trace := st.trace ++ [Event.getField r (mergeExceptions ecol v0)] }
        else Rule.evalValues ext r o (mergeExceptions ecol v0)
          (ext.GetField st.tx (mergeExceptions ecol v0))
          { st with trace := st.trace ++ [Event.getField r (mergeExceptions ecol v0)] })
      st
    = { st with trace := st.trace ++
          vars.map (fun v => Event.getField r (mergeExceptions ecol v)) } := by
  induction vars generalizing st with
  | nil => simp
  | cons v vs ih =>
    have hv : ext.GetField st.tx (mergeExceptions ecol v) = [] := h v (by simp)
    rw [List.foldl_cons]
    simp only [hv, List.length_nil, if_true]
    rw [ih]
    · simp
    · intro w hw
      exact h w (by simp [hw])

theorem take_set_of_le {α : Type} (l : List α) (n m : Nat) (a : α) (h : m ≤ n) :
    (l.set n a).take m = l.take m := by
  rw [List.set_take]
  apply List.set_eq_of_length_le
  rw [List.length_take]
  omega

theorem LoopCopy.append_inv (grow : Nat → Nat) (s0 : Slice ruleVariableException)
    (lc : LoopCopy) (x : ruleVariableException) (h : lc.Inv s0) : (lc.append grow x).Inv s0 := by
  obtain ⟨h1, h2, h3, h4⟩ := h
  unfold LoopCopy.append
  by_cases hcap : lc.copy.len < lc.copy.array.length
  · simp only [hcap, if_true]
    by_cases hal : lc.aliased = true
    · simp only [hal, if_true]
      refine ⟨h1, ?_, by simp only; omega, fun _ => rfl⟩
      rw [← h2]
      unfold Slice.toList
      simp only
      rw [take_set_of_le _ _ _ _ (by omega), h4 hal]
    · simp only [hal]
      refine ⟨h1, h2, by simp only; omega, fun hh => absurd hh (by simp)⟩
  · simp only [hcap, if_false]
    exact ⟨h1, h2, by simp only; omega, fun hh => absurd hh (by simp)⟩

theorem mergeExceptionsMem_inv (grow : Nat → Nat) (ecol : List ruleVariableParams)
    (m : ruleVariableParamsMem) : (mergeExceptionsMem grow ecol m).Inv m.Exceptions := by
  unfold mergeExceptionsMem
  refine foldl_preserves (LoopCopy.Inv m.Exceptions) _ ?_ ecol _ ⟨rfl, rfl, Nat.le_refl _, fun _ => rfl⟩
  intro lc c hlc
  by_cases hc : c.Variable = m.Variable
  · simp only [hc, if_true]; exact LoopCopy.append_inv grow _ lc _ hlc
  · simp only [hc, if_false]; exact hlc

/-- One call of `Rule.Evaluate` leaves the value of every element of
`r.variables` as it was. -/
theorem evaluateVariablesMem_value (grow : Nat → Nat) (ecol : List ruleVariableParams)
    (vars : List ruleVariableParamsMem) :
    (Rule.evaluateVariablesMem grow ecol vars).map ruleVariableParamsMem.value
      = vars.map ruleVariableParamsMem.value := by
  unfold Rule.evaluateVariablesMem
  rw [List.map_map]
  apply List.map_congr_left
  intro m _
  simp only [Function.comp, ruleVariableParamsMem.value]
  rw [(mergeExceptionsMem_inv grow ecol m).2.1]

theorem evalCandidates_spec (ext : Externals Tx) (r : Rule) (o : ruleOperatorParams)
    (v : ruleVariableParams) (arg : MatchData) (args : List String) (st : EvalState Tx) :
    (Rule.evalCandidates ext r o v arg args st).matchedValues =
        st.matchedValues ++ (specCandidateMatches ext o (ext.varName v.Variable) arg args st.tx).1 ∧
    (Rule.evalCandidates ext r o v arg args st).tx =
        (specCandidateMatches ext o (ext.varName v.Variable) arg args st.tx).2 := by
  unfold Rule.evalCandidates
  induction args generalizing st with
  | nil => simp [specCandidateMatches]
  | cons carg rest ih =>
    rw [List.foldl_cons]
    obtain ⟨ih1, ih2⟩ := ih
      { matchedValues :=
          if (Rule.executeOperator ext o carg st.tx).1 then
            st.matchedValues ++
              [{ VariableName := ext.varName v.Variable, Variable := arg.Variable,
                 Key := arg.Key, Value := carg }]
          else st.matchedValues
        tx := (Rule.executeOperator ext o carg st.tx).2
        trace := st.trace ++ [Event.operator r carg (Rule.executeOperator ext o carg st.tx).1] }
    rw [ih1, ih2]
    simp only [specCandidateMatches]
    cases (Rule.executeOperator ext o carg st.tx).1 <;> simp

theorem evalValues_spec (ext : Externals Tx) (r : Rule) (o : ruleOperatorParams)
    (v : ruleVariableParams) (values : List MatchData) (st : EvalState Tx) :
    (Rule.evalValues ext r o v values st).matchedValues =
        st.matchedValues ++ (specValueMatches ext r o (ext.varName v.Variable) values st.tx).1 ∧
    (Rule.evalValues ext r o v values st).tx =
        (specValueMatches ext r o (ext.varName v.Variable) values st.tx).2 := by
  unfold Rule.evalValues
  induction values generalizing st with
  | nil => simp [specValueMatches]
  | cons arg rest ih =>
    rw [List.foldl_cons]
    obtain ⟨ih1, ih2⟩ := ih (Rule.evalCandidates ext r o v arg (r.candidates arg.Value) st)
    obtain ⟨c1, c2⟩ := evalCandidates_spec ext r o v arg (r.candidates arg.Value) st
    rw [ih1, ih2, c1, c2]
    simp [specValueMatches]

theorem evalVariables_spec (ext : Externals Tx) (r : Rule) (o : ruleOperatorParams)
    (ecol : List ruleVariableParams) (vars : List ruleVariableParams) (st : EvalState Tx) :
    (vars.foldl
      (fun st v0 =>
        if (ext.GetField st.tx (mergeExceptions ecol v0)).length = 0 then
          { st with trace := st.trace ++ [Event.getField r (mergeExceptions ecol v0)] }
        else Rule.evalValues ext r o (mergeExceptions ecol v0)
          (ext.GetField st.tx (mergeExceptions ecol v0))
          { st with trace := st.trace ++ [Event.getField r (mergeExceptions ecol v0)] })
      st).matchedValues
      = st.matchedValues ++ (specVariableMatches ext r o ecol vars st.tx).1 := by
  induction vars generalizing st with
  | nil => simp [specVariableMatches]
  | cons v0 rest ih =>
    rw [List.foldl_cons, ih]
    simp only [specVariableMatches]
    by_cases hv : (ext.GetField st.tx (mergeExceptions ecol v0)).length = 0
    · have hnil : ext.GetField st.tx (mergeExceptions ecol v0) = [] := List.length_eq_zero.1 hv
      simp [hv, hnil, specValueMatches]
    · obtain ⟨c1, c2⟩ := evalValues_spec ext r o (mergeExceptions ecol v0)
        (ext.GetField st.tx (mergeExceptions ecol v0))
        { st with trace := st.trace ++ [Event.getField r (mergeExceptions ecol v0)] }
      simp only [hv, if_false, c1, c2, List.append_assoc]

theorem specCandidateMatches_pure (ext : Externals Tx) (o : ruleOperatorParams) (name : String)
    (arg : MatchData) (hpure : ∀ t d, (ext.operatorEvaluate o.Operator t d).2 = t)
    (args : List String) (tx : Tx) :
    specCandidateMatches ext o name arg args tx =
      ((args.filter (fun carg => (Rule.executeOperator ext o carg tx).1)).map
        (fun carg =>
          { VariableName := name, Variable := arg.Variable, Key := arg.Key, Value := carg }), tx) := by
  have hp : ∀ t d, (Rule.executeOperator ext o d t).2 = t := by
    intro t d
    unfold Rule.executeOperator
    simp only
    split
    · exact hpure t d
    · split <;> exact hpure t d
  induction args with
  | nil => rfl
  | cons carg rest ih =>
    simp only [specCandidateMatches, hp, ih]
    cases h : (Rule.executeOperator ext o carg tx).1 <;> simp [List.filter_cons, h]

theorem specValueMatches_pure (ext : Externals Tx) (r : Rule) (o : ruleOperatorParams)
    (name : String) (hpure : ∀ t d, (ext.operatorEvaluate o.Operator t d).2 = t)
    (values : List MatchData) (tx : Tx) :
    specValueMatches ext r o name values tx =
      (values.flatMap (fun arg =>
        ((r.candidates arg.Value).filter (fun carg => (Rule.executeOperator ext o carg tx).1)).map
          (fun carg =>
            { VariableName := name, Variable := arg.Variable, Key := arg.Key, Value := carg })),
        tx) := by
  induction values with
  | nil => rfl
  | cons arg rest ih =>
    simp only [specValueMatches, specCandidateMatches_pure ext o name arg hpure, ih,
      List.flatMap_cons]

theorem specVariableMatches_pure (ext : Externals Tx) (r : Rule) (o : ruleOperatorParams)
    (ecol : List ruleVariableParams) (hpure : ∀ t d, (ext.operatorEvaluate o.Operator t d).2 = t)
    (vars : List ruleVariableParams) (tx : Tx) :
    specVariableMatches ext r o ecol vars tx =
      (vars.flatMap (fun v0 =>
        (ext.GetField tx (mergeExceptions ecol v0)).flatMap (fun arg =>
          ((r.candidates arg.Value).filter
            (fun carg => (Rule.executeOperator ext o carg tx).1)).map
            (fun carg =>
              { VariableName := ext.varName (mergeExceptions ecol v0).Variable,
                Variable := arg.Variable, Key := arg.Key, Value := carg }))),
        tx) := by
  induction vars with
  | nil => rfl
  | cons v0 rest ih =>
    simp only [specVariableMatches, specValueMatches_pure ext r o _ hpure, ih, List.flatMap_cons]

theorem multimatch_foldl (f : String → ruleTransformationParams → String)
    (ts : List ruleTransformationParams) (x : String) (acc : List String) :
    (ts.foldl (fun (st : String × List String) t => (f st.1 t, st.2 ++ [f st.1 t])) (x, acc)).2
      = acc ++ (List.scanl f x ts).tail := by
  induction ts generalizing x acc with
  | nil => simp
  | cons t ts ih =>
    rw [List.foldl_cons, ih, List.scanl_cons]
    cases hs : List.scanl f (f x t) ts with
    | nil =>
      have := List.length_scanl (f := f) (f x t) ts
      rw [hs] at this
      simp at this
    | cons y ys =>
      have h0 := List.getElem?_scanl_zero (f := f) (b := f x t) (l := ts)
      rw [hs] at h0
      simp only [List.getElem?_cons_zero, Option.some.injEq] at h0
      simp [h0]

/-- The multi-match candidates are the running results of the transformations. -/
theorem multimatch_eq_scanl (ts : List ruleTransformationParams) (v : String) :
    Rule.executeTransformationsMultimatch ts v = List.scanl (fun s t => t.Function s) v ts := by
  unfold Rule.executeTransformationsMultimatch
  rw [multimatch_foldl (fun s t => t.Function s) ts v [v]]
  cases hs : List.scanl (fun s (t : ruleTransformationParams) => t.Function s) v ts with
  | nil =>
    have := List.length_scanl (f := fun s (t : ruleTransformationParams) => t.Function s) v ts
    rw [hs] at this
    simp at this
  | cons y ys =>
    have h0 := List.getElem?_scanl_zero
      (f := fun s (t : ruleTransformationParams) => t.Function s) (b := v) (l := ts)
    rw [hs] at h0
    simp only [List.getElem?_cons_zero, Option.some.injEq] at h0
    simp [h0]

theorem multimatch_cons (t : ruleTransformationParams) (ts : List ruleTransformationParams)
    (v : String) :
    Rule.executeTransformationsMultimatch (t :: ts) v
      = v :: Rule.executeTransformationsMultimatch ts (t.Function v) := by
  rw [multimatch_eq_scanl, multimatch_eq_scanl, List.scanl_cons]
  rfl

theorem LoopCopy.append_copy (grow : Nat → Nat) (lc : LoopCopy) (x : ruleVariableException)
    (hwf : lc.copy.len ≤ lc.copy.array.length) :
    (lc.append grow x).copy.len ≤ (lc.append grow x).copy.array.length ∧
    (lc.append grow x).copy.toList = lc.copy.toList ++ [x] := by
  unfold LoopCopy.append
  by_cases hcap : lc.copy.len < lc.copy.array.length
  · simp only [hcap, if_true, Slice.toList, List.length_set]
    refine ⟨hcap, ?_⟩
    rw [List.take_succ, take_set_of_le _ _ _ _ (Nat.le_refl _)]
    simp [List.getElem?_set, hcap]
  · have hlen : lc.copy.len = lc.copy.array.length := by omega
    simp only [hcap, if_false, Slice.toList]
    constructor
    · simp only [List.length_append, List.length_take, List.length_cons, List.length_replicate]
      omega
    · rw [List.take_append_eq_append_take]
      simp [hlen]

theorem mergeExceptionsMem_copy_aux (grow : Nat → Nat) (var : RuleVariable)
    (ecol : List ruleVariableParams) (lc : LoopCopy) (v : ruleVariableParams)
    (hwf : lc.copy.len ≤ lc.copy.array.length) (hv : v.Variable = var)
    (heq : lc.copy.toList = v.Exceptions) :
    (ecol.foldl
      (fun lc c =>
        if c.Variable = var then lc.append grow { KeyStr := c.KeyStr, KeyRx := none } else lc)
      lc).copy.toList
    = (mergeExceptions ecol v).Exceptions := by
  unfold mergeExceptions
  induction ecol generalizing lc v with
  | nil => exact heq
  | cons c rest ih =>
    rw [List.foldl_cons, List.foldl_cons]
    subst hv
    by_cases hc : c.Variable = v.Variable
    · simp only [hc, if_true]
      obtain ⟨h1, h2⟩ := LoopCopy.append_copy grow lc { KeyStr := c.KeyStr, KeyRx := none } hwf
      exact ih _ _ h1 rfl (by rw [h2, heq])
    · simp only [hc, if_false]
      exact ih _ _ hwf rfl heq

/-- The loop copy built in memory shows the elements that `mergeExceptions`
computes on values: the stored exceptions followed by those of this call. -/
theorem mergeExceptionsMem_copy (grow : Nat → Nat) (ecol : List ruleVariableParams)
    (m : ruleVariableParamsMem) (hwf : m.Exceptions.len ≤ m.Exceptions.array.length) :
    (mergeExceptionsMem grow ecol m).copy.toList = (mergeExceptions ecol m.value).Exceptions :=
  mergeExceptionsMem_copy_aux grow m.Variable ecol _ m.value hwf rfl rfl

/-- The appends of a call do reach the backing array stored in the rule when it
has spare capacity: the cell after the last element is overwritten, while the
elements themselves stay. -/
theorem evaluateVariablesMem_spare_capacity :
    (Rule.evaluateVariablesMem (fun n => 2 * n)
        [{ Variable := 1, KeyStr := "user" }, { Variable := 2, KeyStr := "x" }]
        [{ Variable := 1, Exceptions := ⟨[⟨"id", none⟩, ⟨"", none⟩], 1⟩ }]).map
      (fun m => (m.Exceptions.array, m.Exceptions.len, m.Exceptions.toList))
    = [([⟨"id", none⟩, ⟨"user", none⟩], 1, [⟨"id", none⟩])] := by
  decide

theorem chainMatches_none (ext : Externals Tx) (tx : Tx) : chainMatches ext none tx = [] := by
  rw [chainMatches]

theorem chainMatches_some_mk (ext : Externals Tx) (f : RuleFields) (c : Option Rule) (tx : Tx) :
    chainMatches ext (some (Rule.mk f c)) tx =
      if (Rule.Evaluate ext (Rule.mk f c) tx).matchedValues.length = 0 then []
      else (Rule.Evaluate ext (Rule.mk f c) tx).matchedValues ++
        chainMatches ext c (Rule.Evaluate ext (Rule.mk f c) tx).tx := by
  rw [chainMatches, Rule.walkMatches]

/-- A walk that meets no empty evaluation appends exactly the matches of the
chained rules. -/
theorem evaluateChain_matches (ext : Externals Tx) :
    ∀ nr : Option Rule, ∀ st : EvalState Tx, chainFails ext nr st.tx = false →
      (Rule.evaluateChain ext nr st).2.matchedValues =
        st.matchedValues ++ chainMatches ext nr st.tx := by
  refine (Rule.chain_induction (P := fun _ => True) ?_ ?_ ?_).2
  · intro st _
    simp [Rule.evaluateChain, chainMatches_none]
  · intro f c _ hQ st hf
    rw [chainFails_some_mk] at hf
    rw [Rule.evaluateChain.eq_2, chainMatches_some_mk]
    by_cases h0 : (Rule.Evaluate ext (Rule.mk f c) st.tx).matchedValues.length = 0
    · simp [h0] at hf
    · simp only [h0, if_false] at hf ⊢
      have := hQ
        { matchedValues := st.matchedValues ++ (Rule.Evaluate ext (Rule.mk f c) st.tx).matchedValues
          tx := (Rule.Evaluate ext (Rule.mk f c) st.tx).tx
          trace := st.trace ++ (Rule.Evaluate ext (Rule.mk f c) st.tx).trace } hf
      rw [this]
      simp
  · intros; trivial

end Lemmas


/-! ## Chains and the ordering of actions -/

/-- C1. When the chain walk of a rule meets a chained rule whose evaluation returns
the empty slice, `Rule.Evaluate` on the rule returns the empty slice, every action
of the rule it evaluated is not of type Disruptive or Flow, and no `MatchedRule`
passed to `tx.MatchRule` during the call is one of this rule.  If moreover the
chained rules all have `ParentId != 0`, the call makes no call to `tx.MatchRule`
and evaluates no Disruptive or Flow action at all. -/
theorem chain_failure_returns_empty (ext : Externals Tx) (r : Rule) (tx : Tx)
    (hfail : chainFails ext r.Chain
      (Rule.afterMatch ext r (Rule.matchOwn ext r tx)).tx = true) :
    (Rule.Evaluate ext r tx).matchedValues = [] ∧
    (∀ a, Event.action r a ∈ (Rule.Evaluate ext r tx).trace →
      isDisruptiveOrFlow (ext.actionType a.Function) = false) ∧
    (∀ mr, Event.matchRule mr ∈ (Rule.Evaluate ext r tx).trace → mr.Rule ≠ r) ∧
    ((∀ d ∈ chainRules r.Chain, d.fields.ParentId ≠ 0) →
      ∀ e ∈ (Rule.Evaluate ext r tx).trace, e.isHeadEffect ext = false) := by
  have hmain : (Rule.Evaluate ext r tx).matchedValues = [] ∧
      ∀ e ∈ (Rule.Evaluate ext r tx).trace, e.caller = r → e.isHeadEffect ext = false := by
    by_cases h0 : (Rule.matchOwn ext r tx).matchedValues = []
    · have heq : Rule.Evaluate ext r tx = Rule.matchOwn ext r tx := by
        rw [Rule.Evaluate_eq]; simp [h0]
      rw [heq]
      exact ⟨h0, fun e he _ => isLookup_not_headEffect ext e (matchOwn_trace ext r tx e he).2⟩
    · obtain ⟨ms, tr, _, h2, h3, h4, h5⟩ := Evaluate_decompose ext r tx h0
      rw [hfail] at h4
      simp only [Bool.not_true] at h4
      rw [h5]
      simp only [h4, Bool.false_eq_true, if_false]
      refine ⟨trivial, ?_⟩
      intro e he hc
      rw [h2] at he
      simp only [List.mem_append] at he
      rcases he with (he | he) | he
      · exact isLookup_not_headEffect ext e (matchOwn_trace ext r tx e he).2
      · exact (within_afterMatch ext r [] _ e he).2
      · exact absurd (hc ▸ (h3 e he).1) (Rule.not_mem_chained r)
  refine ⟨hmain.1, ?_, ?_, ?_⟩
  · intro a ha
    simpa [Event.isHeadEffect] using hmain.2 _ ha rfl
  · intro mr hmr hr
    have := hmain.2 _ hmr hr
    simp [Event.isHeadEffect] at this
  · intro hch e he
    cases hh : e.isHeadEffect ext
    · rfl
    · obtain ⟨hin, hpz⟩ := (evaluate_chain_spec ext).1 r tx e he
      simp only [List.mem_cons] at hin
      rcases hin with hin | hin
      · rw [hmain.2 e he hin] at hh
        exact absurd hh (by simp)
      · exact absurd (hpz hh) (hch _ hin)

theorem chain_failure_returns_empty_witness :
    chainFails demoExt demoHeadFail.Chain
      (Rule.afterMatch demoExt demoHeadFail (Rule.matchOwn demoExt demoHeadFail 0)).tx = true ∧
    (Rule.Evaluate demoExt demoHeadFail 0).matchedValues = [] ∧
    (∀ a, Event.action demoHeadFail a ∈ (Rule.Evaluate demoExt demoHeadFail 0).trace →
      isDisruptiveOrFlow (demoExt.actionType a.Function) = false) ∧
    (∀ mr, Event.matchRule mr ∈ (Rule.Evaluate demoExt demoHeadFail 0).trace →
      mr.Rule ≠ demoHeadFail) ∧
    ((∀ d ∈ chainRules demoHeadFail.Chain, d.fields.ParentId ≠ 0) →
      ∀ e ∈ (Rule.Evaluate demoExt demoHeadFail 0).trace, e.isHeadEffect demoExt = false) :=
  ⟨by decide, chain_failure_returns_empty demoExt demoHeadFail 0 (by decide)⟩

/-- C2. For a rule with an operator, each of its NonDisruptive actions is evaluated
during `Rule.Evaluate` if and only if one of the rule's own calls of
`executeOperator` returned true; nothing is assumed about the chain, so this holds
whether the chain then succeeds or fails. -/
theorem nondisruptive_iff_own_operator_matched (ext : Externals Tx) (r : Rule) (tx : Tx)
    (o : ruleOperatorParams) (hop : r.fields.operator = some o)
    (a : ruleActionParams) (ha : a ∈ r.fields.actions)
    (hnd : ext.actionType a.Function = RuleActionType.ActionTypeNondisruptive) :
    Event.action r a ∈ (Rule.Evaluate ext r tx).trace ↔
      ∃ carg, Event.operator r carg true ∈ (Rule.Evaluate ext r tx).trace := by
  by_cases h0 : (Rule.matchOwn ext r tx).matchedValues = []
  · have heq : Rule.Evaluate ext r tx = Rule.matchOwn ext r tx := by
      rw [Rule.Evaluate_eq]; simp [h0]
    rw [heq]
    constructor
    · intro h
      have := (matchOwn_trace ext r tx _ h).2
      simp [Event.isLookup] at this
    · intro h
      exact absurd h0 ((matchOwn_ne_nil_iff ext r tx o hop).2 h)
  · obtain ⟨ms, tr, _, h2, _, _, h5⟩ := Evaluate_decompose ext r tx h0
    have hsub : ∀ e, e ∈ (Rule.evaluateChain ext r.Chain
        (Rule.afterMatch ext r (Rule.matchOwn ext r tx))).2.trace →
        e ∈ (Rule.Evaluate ext r tx).trace := by
      intro e he
      rw [h5]
      by_cases hb : (Rule.evaluateChain ext r.Chain
          (Rule.afterMatch ext r (Rule.matchOwn ext r tx))).1 = true
      · simp only [hb, if_true, headEffects_trace, List.mem_append]
        exact Or.inl he
      · simp only [hb]
        exact he
    constructor
    · intro _
      obtain ⟨carg, hc⟩ := (matchOwn_ne_nil_iff ext r tx o hop).1 h0
      refine ⟨carg, hsub _ ?_⟩
      rw [h2]
      simp only [List.mem_append]
      exact Or.inl (Or.inl hc)
    · intro _
      apply hsub
      rw [h2]
      simp only [List.mem_append, List.mem_cons, List.mem_map, List.mem_filter]
      exact Or.inl (Or.inr (Or.inr ⟨a, ⟨ha, by simp [hnd, isNondisruptive]⟩, rfl⟩))

theorem nondisruptive_iff_own_operator_matched_witness :
    demoHeadFail.fields.operator = some ⟨2, "@streq", "/login", false⟩ ∧
    (⟨"setvar", 0⟩ : ruleActionParams) ∈ demoHeadFail.fields.actions ∧
    demoExt.actionType 0 = RuleActionType.ActionTypeNondisruptive ∧
    (Event.action demoHeadFail ⟨"setvar", 0⟩ ∈ (Rule.Evaluate demoExt demoHeadFail 0).trace ↔
      ∃ carg, Event.operator demoHeadFail carg true ∈
        (Rule.Evaluate demoExt demoHeadFail 0).trace) :=
  ⟨rfl, by decide, rfl,
    nondisruptive_iff_own_operator_matched demoExt demoHeadFail 0 _ rfl ⟨"setvar", 0⟩
      (by decide) rfl⟩

/-- C3. For a rule with `ParentId == 0` whose chained rules all have
`ParentId != 0`, whatever the length of the chain: when `Rule.Evaluate` returns a
non-empty slice (the rule matched and so did every chained rule the walk
evaluated), the calls it made are, in order, a first part without any call to
`tx.MatchRule` and without any Disruptive or Flow action (of any rule), then one
call to `tx.MatchRule` for this rule if `Log` is set and none otherwise, then the
Disruptive and Flow actions of the rule, once each, in declaration order.  In
particular `tx.MatchRule` is called once if `Log` is set and never otherwise. -/
theorem head_effects_once_after_chain (ext : Externals Tx) (r : Rule) (tx : Tx)
    (hp : r.fields.ParentId = 0)
    (hch : ∀ d ∈ chainRules r.Chain, d.fields.ParentId ≠ 0)
    (hm : (Rule.Evaluate ext r tx).matchedValues ≠ []) :
    ∃ pre mr,
      (Rule.Evaluate ext r tx).trace =
        pre ++ (if r.fields.Log then [Event.matchRule mr] else []) ++
          (r.fields.actions.filter
            (fun a => isDisruptiveOrFlow (ext.actionType a.Function))).map (Event.action r) ∧
      mr.Rule = r ∧
      mr.MatchedData = (Rule.Evaluate ext r tx).matchedValues.headD {} ∧
      (∀ e ∈ pre, e.isHeadEffect ext = false) ∧
      (Rule.Evaluate ext r tx).trace.countP Event.isMatchRule
        = if r.fields.Log then 1 else 0 := by
  obtain ⟨h0, hok⟩ := (Evaluate_ne_nil_iff ext r tx).1 hm
  obtain ⟨ms, tr, h1, h2, h3, h4, h5⟩ := Evaluate_decompose ext r tx h0
  rw [hok] at h4
  simp only [Bool.not_false] at h4
  simp only [h4, if_true] at h5
  have hpre : ∀ e ∈ (Rule.evaluateChain ext r.Chain
      (Rule.afterMatch ext r (Rule.matchOwn ext r tx))).2.trace, e.isHeadEffect ext = false := by
    intro e he
    rw [h2] at he
    simp only [List.mem_append] at he
    rcases he with (he | he) | he
    · exact isLookup_not_headEffect ext e (matchOwn_trace ext r tx e he).2
    · exact (within_afterMatch ext r [] _ e he).2
    · cases hh : e.isHeadEffect ext
      · rfl
      · exact absurd ((h3 e he).2 hh) (hch _ (h3 e he).1)
  have htrace : (Rule.Evaluate ext r tx).trace =
      (Rule.evaluateChain ext r.Chain
        (Rule.afterMatch ext r (Rule.matchOwn ext r tx))).2.trace ++
      (if r.fields.Log then [Event.matchRule (r.matchedRule ext
        (Rule.evaluateChain ext r.Chain
          (Rule.afterMatch ext r (Rule.matchOwn ext r tx))).2)] else []) ++
      (r.fields.actions.filter
        (fun a => isDisruptiveOrFlow (ext.actionType a.Function))).map (Event.action r) := by
    rw [h5, headEffects_trace, headTail]
    simp only [hp, if_true, List.append_assoc]
  refine ⟨_, _, htrace, rfl, ?_, hpre, ?_⟩
  · rw [h5, headEffects_matchedValues]
    rfl
  · rw [htrace, List.countP_append, List.countP_append]
    have e1 : List.countP Event.isMatchRule (Rule.evaluateChain ext r.Chain
        (Rule.afterMatch ext r (Rule.matchOwn ext r tx))).2.trace = 0 := by
      rw [List.countP_eq_zero]
      intro e he
      have := hpre e he
      cases e <;> simp_all [Event.isHeadEffect, Event.isMatchRule]
    have e3 : List.countP Event.isMatchRule
        ((r.fields.actions.filter
          (fun a => isDisruptiveOrFlow (ext.actionType a.Function))).map (Event.action r)) = 0 := by
      rw [List.countP_eq_zero]
      intro e he
      simp only [List.mem_map] at he
      obtain ⟨a, _, rfl⟩ := he
      simp [Event.isMatchRule]
    rw [e1, e3]
    by_cases hl : r.fields.Log = true <;> simp [hl, Event.isMatchRule]

theorem head_effects_once_after_chain_witness :
    demoHeadOk.fields.ParentId = 0 ∧
    (∀ d ∈ chainRules demoHeadOk.Chain, d.fields.ParentId ≠ 0) ∧
    (Rule.Evaluate demoExt demoHeadOk 0).matchedValues ≠ [] ∧
    ∃ pre mr,
      (Rule.Evaluate demoExt demoHeadOk 0).trace =
        pre ++ (if demoHeadOk.fields.Log then [Event.matchRule mr] else []) ++
          (demoHeadOk.fields.actions.filter
            (fun a => isDisruptiveOrFlow (demoExt.actionType a.Function))).map
              (Event.action demoHeadOk) ∧
      mr.Rule = demoHeadOk ∧
      mr.MatchedData = (Rule.Evaluate demoExt demoHeadOk 0).matchedValues.headD {} ∧
      (∀ e ∈ pre, e.isHeadEffect demoExt = false) ∧
      (Rule.Evaluate demoExt demoHeadOk 0).trace.countP Event.isMatchRule
        = if demoHeadOk.fields.Log then 1 else 0 :=
  ⟨by decide, by decide, by decide,
    head_effects_once_after_chain demoExt demoHeadOk 0 (by decide) (by decide) (by decide)⟩

/-- C4. For a rule with `ParentId != 0`, whether it matches or not: no
`MatchedRule` passed to `tx.MatchRule` during `Rule.Evaluate` on it is one of this
rule, and every action of the rule evaluated during the call is not of type
Disruptive or Flow.  If moreover its chained rules all have `ParentId != 0`, the
call makes no call to `tx.MatchRule` and evaluates no Disruptive or Flow action
at all. -/
theorem chained_rule_no_head_effects (ext : Externals Tx) (r : Rule) (tx : Tx)
    (hp : r.fields.ParentId ≠ 0) :
    (∀ mr, Event.matchRule mr ∈ (Rule.Evaluate ext r tx).trace → mr.Rule ≠ r) ∧
    (∀ a, Event.action r a ∈ (Rule.Evaluate ext r tx).trace →
      isDisruptiveOrFlow (ext.actionType a.Function) = false) ∧
    ((∀ d ∈ chainRules r.Chain, d.fields.ParentId ≠ 0) →
      ∀ e ∈ (Rule.Evaluate ext r tx).trace, e.isHeadEffect ext = false) := by
  have hw := (evaluate_chain_spec ext).1 r tx
  refine ⟨?_, ?_, ?_⟩
  · intro mr hmr hr
    have := (hw _ hmr).2 rfl
    simp only [Event.caller, hr] at this
    exact hp this
  · intro a ha
    cases hh : isDisruptiveOrFlow (ext.actionType a.Function)
    · rfl
    · exact absurd ((hw _ ha).2 (by simpa [Event.isHeadEffect] using hh)) hp
  · intro hch e he
    cases hh : e.isHeadEffect ext
    · rfl
    · obtain ⟨hin, hpz⟩ := hw e he
      simp only [List.mem_cons] at hin
      rcases hin with hin | hin
      · exact absurd (hin ▸ hpz hh) hp
      · exact absurd (hpz hh) (hch _ hin)

theorem chained_rule_no_head_effects_witness :
    demoChildAttack.fields.ParentId ≠ 0 ∧
    (∀ mr, Event.matchRule mr ∈ (Rule.Evaluate demoExt demoChildAttack 0).trace →
      mr.Rule ≠ demoChildAttack) ∧
    (∀ a, Event.action demoChildAttack a ∈ (Rule.Evaluate demoExt demoChildAttack 0).trace →
      isDisruptiveOrFlow (demoExt.actionType a.Function) = false) ∧
    ((∀ d ∈ chainRules demoChildAttack.Chain, d.fields.ParentId ≠ 0) →
      ∀ e ∈ (Rule.Evaluate demoExt demoChildAttack 0).trace,
        e.isHeadEffect demoExt = false) :=
  ⟨by decide, chained_rule_no_head_effects demoExt demoChildAttack 0 (by decide)⟩

/-! ## Rules without operator, rules that select nothing -/

/-- C5, as stated, fails: a rule without operator whose chained rule matches returns
two elements, the forced match and the match of the chained rule, not a slice of
one element. -/
theorem forced_match_counterexample :
    demoSecActionChainOk.fields.operator = none ∧
    (Rule.Evaluate demoExt demoSecActionChainOk 0).matchedValues =
      [{ VariableName := "", Variable := 0, Key := "", Value := "" },
       { VariableName := "ARGS", Variable := 1, Key := "q", Value := "attack" }] := by
  decide

/-- C5, amended. For a rule without operator: with no chain, `Rule.Evaluate` returns
exactly one element, the `MatchData` whose fields are all empty (`Key` and `Value`
are `""`); with a chain whose walk meets no chained rule returning the empty slice,
it returns that element followed by the matches of the chained rules: the lists
returned by the evaluations of `r.Chain`, `r.Chain.Chain`, and so on, concatenated
in that order (`chainMatches`). -/
theorem forced_match_without_operator (ext : Externals Tx) (r : Rule) (tx : Tx)
    (hop : r.fields.operator = none) :
    (r.Chain = none →
      (Rule.Evaluate ext r tx).matchedValues =
        [{ VariableName := "", Variable := 0, Key := "", Value := "" }]) ∧
    (chainFails ext r.Chain (Rule.afterMatch ext r (Rule.matchOwn ext r tx)).tx = false →
      (Rule.Evaluate ext r tx).matchedValues =
        { VariableName := "", Variable := 0, Key := "", Value := "" } ::
          chainMatches ext r.Chain (Rule.afterMatch ext r (Rule.matchOwn ext r tx)).tx) := by
  have hown : (Rule.matchOwn ext r tx).matchedValues =
      [{ VariableName := "", Variable := 0, Key := "", Value := "" }] := by
    unfold Rule.matchOwn
    rw [hop]
  have h0 : (Rule.matchOwn ext r tx).matchedValues ≠ [] := by rw [hown]; simp
  obtain ⟨ms, tr, _, _, _, h4, h5⟩ := Evaluate_decompose ext r tx h0
  have hok : chainFails ext r.Chain (Rule.afterMatch ext r (Rule.matchOwn ext r tx)).tx = false →
      (Rule.Evaluate ext r tx).matchedValues =
        { VariableName := "", Variable := 0, Key := "", Value := "" } ::
          chainMatches ext r.Chain (Rule.afterMatch ext r (Rule.matchOwn ext r tx)).tx := by
    intro hf
    rw [hf] at h4
    simp only [Bool.not_false] at h4
    rw [h5]
    simp only [h4, if_true, headEffects_matchedValues]
    rw [evaluateChain_matches ext r.Chain _ hf, afterMatch_matchedValues, hown]
    rfl
  refine ⟨?_, hok⟩
  intro hc
  have hf : chainFails ext r.Chain
      (Rule.afterMatch ext r (Rule.matchOwn ext r tx)).tx = false := by
    rw [hc, chainFails_none]
  rw [hok hf, hc, chainMatches_none]

theorem forced_match_without_operator_witness :
    demoSecActionChainOk.fields.operator = none ∧
    chainFails demoExt demoSecActionChainOk.Chain
      (Rule.afterMatch demoExt demoSecActionChainOk
        (Rule.matchOwn demoExt demoSecActionChainOk 0)).tx = false ∧
    chainMatches demoExt demoSecActionChainOk.Chain
      (Rule.afterMatch demoExt demoSecActionChainOk
        (Rule.matchOwn demoExt demoSecActionChainOk 0)).tx =
      [{ VariableName := "ARGS", Variable := 1, Key := "q", Value := "attack" }] ∧
    (Rule.Evaluate demoExt demoSecActionChainOk 0).matchedValues =
      { VariableName := "", Variable := 0, Key := "", Value := "" } ::
        chainMatches demoExt demoSecActionChainOk.Chain
          (Rule.afterMatch demoExt demoSecActionChainOk
            (Rule.matchOwn demoExt demoSecActionChainOk 0)).tx ∧
    demoSecAction.Chain = none ∧
    (Rule.Evaluate demoExt demoSecAction 0).matchedValues =
      [{ VariableName := "", Variable := 0, Key := "", Value := "" }] :=
  ⟨by decide, by decide, by decide,
    (forced_match_without_operator demoExt demoSecActionChainOk 0 (by decide)).2 (by decide),
    rfl,
    (forced_match_without_operator demoExt demoSecAction 0 (by decide)).1 rfl⟩

/-- C6, as stated, fails: `SecAction` has no `VariableSpec`, so `tx.GetField`
returns the empty list for every one of them, yet the rule matches and its
actions are evaluated. -/
theorem no_values_counterexample :
    (∀ v ∈ demoSecAction.fields.ruleVariables, ∀ tx, demoExt.GetField tx v = []) ∧
    (Rule.Evaluate demoExt demoSecAction 0).matchedValues ≠ [] ∧
    (Rule.Evaluate demoExt demoSecAction 0).trace.any Event.isAction = true := by
  refine ⟨?_, by decide, by decide⟩
  intro v hv
  exact absurd hv (List.not_mem_nil v)

/-- C6, amended. For a rule with an operator: if `tx.GetField` returns the empty
list for every `VariableSpec` of the rule (each asked with the exceptions merged
in at line 250, on the transaction as `Rule.Evaluate` finds it at line 254), then
`Rule.Evaluate` returns the empty slice and the calls it makes are its entry and
one `tx.GetField` per `VariableSpec`, nothing else: no action, no operator, no
chained rule; the transaction is left as it was after line 225. -/
theorem no_values_no_match (ext : Externals Tx) (r : Rule) (tx : Tx) (o : ruleOperatorParams)
    (hop : r.fields.operator = some o)
    (hempty : ∀ v ∈ r.fields.ruleVariables,
      ext.GetField (r.setRuleCollection ext tx) (mergeExceptions (r.ecol ext tx) v) = []) :
    (Rule.Evaluate ext r tx).matchedValues = [] ∧
    (Rule.Evaluate ext r tx).trace =
      Event.evaluate r ::
        r.fields.ruleVariables.map (fun v => Event.getField r (mergeExceptions (r.ecol ext tx) v)) ∧
    (Rule.Evaluate ext r tx).tx = r.setRuleCollection ext tx := by
  have hown : Rule.matchOwn ext r tx =
      { matchedValues := [], tx := r.setRuleCollection ext tx,
        trace := Event.evaluate r ::
          r.fields.ruleVariables.map
            (fun v => Event.getField r (mergeExceptions (r.ecol ext tx) v)) } := by
    unfold Rule.matchOwn
    rw [hop]
    simp only
    unfold Rule.evalVariables
    rw [evalVariables_all_empty ext r o (r.ecol ext tx) r.fields.ruleVariables _ hempty]
    simp
  have heq : Rule.Evaluate ext r tx = Rule.matchOwn ext r tx := by
    rw [Rule.Evaluate_eq, hown]; simp
  rw [heq, hown]
  exact ⟨rfl, rfl, rfl⟩

theorem no_values_no_match_witness :
    demoSelectsNothing.fields.operator = some ⟨0, "@streq", "attack", false⟩ ∧
    (∀ v ∈ demoSelectsNothing.fields.ruleVariables,
      demoExt.GetField (demoSelectsNothing.setRuleCollection demoExt 0)
        (mergeExceptions (demoSelectsNothing.ecol demoExt 0) v) = []) ∧
    (Rule.Evaluate demoExt demoSelectsNothing 0).matchedValues = [] ∧
    (Rule.Evaluate demoExt demoSelectsNothing 0).trace =
      Event.evaluate demoSelectsNothing ::
        demoSelectsNothing.fields.ruleVariables.map
          (fun v => Event.getField demoSelectsNothing
            (mergeExceptions (demoSelectsNothing.ecol demoExt 0) v)) ∧
    (Rule.Evaluate demoExt demoSelectsNothing 0).tx
      = demoSelectsNothing.setRuleCollection demoExt 0 :=
  ⟨rfl, by decide,
    no_values_no_match demoExt demoSelectsNothing 0 ⟨0, "@streq", "attack", false⟩ rfl
      (by decide)⟩

/-! ## The compiled rule is not changed by its evaluation -/

/-- C7. For every rule, as its variables lie in memory (each `Exceptions` slice with
its backing array and spare capacity), and every sequence of calls of
`Rule.Evaluate` on it, whatever `tx.ruleRemoveTargetById[r.Id]` holds in each
call: after the calls every entry of the rule's variables has the value it had
before the first call, and in particular the same `Exceptions` list.  The
exceptions merged in during a call go to the loop copy; they neither stay in the
rule nor pile up from call to call. -/
theorem evaluate_keeps_exceptions (grow : Nat → Nat) (ecols : List (List ruleVariableParams))
    (vars : List ruleVariableParamsMem) :
    (Rule.evaluateManyMem grow ecols vars).map ruleVariableParamsMem.value
        = vars.map ruleVariableParamsMem.value ∧
    (Rule.evaluateManyMem grow ecols vars).map (fun m => m.Exceptions.toList)
        = vars.map (fun m => m.Exceptions.toList) := by
  have h : (Rule.evaluateManyMem grow ecols vars).map ruleVariableParamsMem.value
      = vars.map ruleVariableParamsMem.value := by
    unfold Rule.evaluateManyMem
    induction ecols generalizing vars with
    | nil => rfl
    | cons ecol rest ih =>
      rw [List.foldl_cons, ih, evaluateVariablesMem_value]
  refine ⟨h, ?_⟩
  have := congrArg (List.map ruleVariableParams.Exceptions) h
  simpa [List.map_map, Function.comp, ruleVariableParamsMem.value] using this

/-! ## The list of matches, the candidates, the operator -/

/-- C8. For a rule with an operator and no chain, `Rule.Evaluate` returns exactly the
list the specification describes: in the order of the rule's variables, then of
the values `tx.GetField` returns for the variable, then of the transformed
candidates of the value, one `MatchData{VariableName: v.Variable.Name(),
Variable: arg.Variable, Key: arg.Key, Value: carg}` for each candidate `carg` on
which `executeOperator` returns true; `Value` is the candidate, not the value it
was made from.  When the operator leaves the transaction alone, that list is the
plain nested enumeration on the transaction as it is after line 225. -/
theorem matches_of_unchained_rule (ext : Externals Tx) (r : Rule) (tx : Tx)
    (o : ruleOperatorParams) (hop : r.fields.operator = some o) (hchain : r.Chain = none) :
    (Rule.Evaluate ext r tx).matchedValues =
      (specVariableMatches ext r o (r.ecol ext tx) r.fields.ruleVariables
        (r.setRuleCollection ext tx)).1 ∧
    ((∀ t d, (ext.operatorEvaluate o.Operator t d).2 = t) →
      (Rule.Evaluate ext r tx).matchedValues =
        r.fields.ruleVariables.flatMap (fun v =>
          (ext.GetField (r.setRuleCollection ext tx) (mergeExceptions (r.ecol ext tx) v)).flatMap
            (fun arg =>
              ((r.candidates arg.Value).filter
                (fun carg =>
                  (Rule.executeOperator ext o carg (r.setRuleCollection ext tx)).1)).map
                (fun carg =>
                  { VariableName := ext.varName (mergeExceptions (r.ecol ext tx) v).Variable,
                    Variable := arg.Variable, Key := arg.Key, Value := carg })))) := by
  have hown : (Rule.matchOwn ext r tx).matchedValues =
      (specVariableMatches ext r o (r.ecol ext tx) r.fields.ruleVariables
        (r.setRuleCollection ext tx)).1 := by
    unfold Rule.matchOwn
    rw [hop]
    simp only
    unfold Rule.evalVariables
    rw [evalVariables_spec]
    simp
  have hres : (Rule.Evaluate ext r tx).matchedValues = (Rule.matchOwn ext r tx).matchedValues := by
    rw [Rule.Evaluate_eq]
    by_cases h0 : (Rule.matchOwn ext r tx).matchedValues.length = 0
    · simp only [h0, if_true]
    · simp only [h0, if_false, hchain, Rule.evaluateChain.eq_1, if_true,
        headEffects_matchedValues, afterMatch_matchedValues]
  refine ⟨by rw [hres, hown], fun hpure => ?_⟩
  rw [hres, hown, specVariableMatches_pure ext r o _ hpure]

theorem matches_of_unchained_rule_witness :
    demoMultiMatch.fields.operator = some ⟨0, "@streq", "attack", false⟩ ∧
    demoMultiMatch.Chain = none ∧
    (Rule.Evaluate demoExt demoMultiMatch 0).matchedValues =
      (specVariableMatches demoExt demoMultiMatch ⟨0, "@streq", "attack", false⟩
        (demoMultiMatch.ecol demoExt 0) demoMultiMatch.fields.ruleVariables
        (demoMultiMatch.setRuleCollection demoExt 0)).1 ∧
    (Rule.Evaluate demoExt demoMultiMatch 0).matchedValues =
      demoMultiMatch.fields.ruleVariables.flatMap (fun v =>
        (demoExt.GetField (demoMultiMatch.setRuleCollection demoExt 0)
            (mergeExceptions (demoMultiMatch.ecol demoExt 0) v)).flatMap
          (fun arg =>
            ((demoMultiMatch.candidates arg.Value).filter
              (fun carg =>
                (Rule.executeOperator demoExt ⟨0, "@streq", "attack", false⟩ carg
                  (demoMultiMatch.setRuleCollection demoExt 0)).1)).map
              (fun carg =>
                { VariableName :=
                    demoExt.varName (mergeExceptions (demoMultiMatch.ecol demoExt 0) v).Variable,
                  Variable := arg.Variable, Key := arg.Key, Value := carg }))) :=
  ⟨rfl, rfl,
    (matches_of_unchained_rule demoExt demoMultiMatch 0 ⟨0, "@streq", "attack", false⟩ rfl rfl).1,
    (matches_of_unchained_rule demoExt demoMultiMatch 0 ⟨0, "@streq", "attack", false⟩ rfl rfl).2
      (fun _ _ => rfl)⟩

/-- The multi-match scenario of the specification: the operator sees
`" ATTACK "`, `" attack "`, `"attack"` and the single match records the third. -/
theorem multimatch_scenario :
    demoMultiMatch.candidates " ATTACK " = [" ATTACK ", " attack ", "attack"] ∧
    (Rule.Evaluate demoExt demoMultiMatch 0).matchedValues =
      [{ VariableName := "ARGS_POST", Variable := 6, Key := "p", Value := "attack" }] := by
  decide

/-- C9. For transformations `t1..tn` and an input `v`,
`executeTransformationsMultimatch` returns `n+1` strings: element 0 is `v`, and
element `i+1` is transformation `i+1` applied to element `i`. -/
theorem multimatch_candidates (ts : List ruleTransformationParams) (v : String) :
    (Rule.executeTransformationsMultimatch ts v).length = ts.length + 1 ∧
    (Rule.executeTransformationsMultimatch ts v)[0]? = some v ∧
    ∀ i : Fin ts.length,
      (Rule.executeTransformationsMultimatch ts v)[i.val + 1]? =
        ((Rule.executeTransformationsMultimatch ts v)[i.val]?).map (ts.get i).Function := by
  refine ⟨?_, ?_, ?_⟩
  · rw [multimatch_eq_scanl, List.length_scanl]
  · rw [multimatch_eq_scanl, List.getElem?_scanl_zero]
  · induction ts generalizing v with
    | nil => intro i; exact absurd i.isLt (Nat.not_lt_zero _)
    | cons t ts ih =>
      intro i
      rw [multimatch_cons]
      rcases i with ⟨i, hi⟩
      cases i with
      | zero =>
        simp only [List.getElem?_cons_succ, List.getElem?_cons_zero, Option.map_some']
        rw [multimatch_eq_scanl, List.getElem?_scanl_zero]
        rfl
      | succ j =>
        have hj : j < ts.length := by simpa using hi
        have := ih (t.Function v) ⟨j, hj⟩
        simpa using this

/-- C10. The value `executeOperator` returns is `Negation XOR Operator.Evaluate(tx,
input)`: the operator's verdict when `Negation` is false, its complement when
`Negation` is true.  The transaction is the one the operator left. -/
theorem executeOperator_is_xor (ext : Externals Tx) (o : ruleOperatorParams) (data : String)
    (tx : Tx) :
    (Rule.executeOperator ext o data tx).1
        = Bool.xor o.Negation (ext.operatorEvaluate o.Operator tx data).1 ∧
    (Rule.executeOperator ext o data tx).1
        = (if o.Negation then !(ext.operatorEvaluate o.Operator tx data).1
           else (ext.operatorEvaluate o.Operator tx data).1) ∧
    (Rule.executeOperator ext o data tx).2 = (ext.operatorEvaluate o.Operator tx data).2 := by
  unfold Rule.executeOperator
  cases hn : o.Negation <;> cases hr : (ext.operatorEvaluate o.Operator tx data).1 <;>
    simp [hn, hr]

/-! ## The end-to-end scenarios of the specification, run on the model -/

/-- Scenario 1 (SecAction): one match with empty key and value, both actions run,
one `MatchedRule` is emitted. -/
theorem scenario_secaction :
    (Rule.Evaluate demoExt demoSecAction 0).matchedValues = [{ Key := "", Value := "" }] ∧
    (Rule.Evaluate demoExt demoSecAction 0).trace.countP Event.isAction = 2 ∧
    (Rule.Evaluate demoExt demoSecAction 0).trace.countP Event.isMatchRule = 1 := by
  decide

/-- Scenario 3 (negation prevents the match): nothing is returned and nothing runs. -/
theorem scenario_negation :
    (Rule.Evaluate demoExt demoNegated 0).matchedValues = [] ∧
    (Rule.Evaluate demoExt demoNegated 0).trace.countP (Event.isHeadEffect demoExt) = 0 := by
  decide

/-- Scenarios 5 and 6 (chain): when both rules match, the two matches are returned,
`deny` and `skip` run once and one `MatchedRule` is emitted; when the chained rule
does not match, nothing is returned, and neither happens. -/
theorem scenario_chain :
    (Rule.Evaluate demoExt demoHeadOk 0).matchedValues.length = 2 ∧
    (Rule.Evaluate demoExt demoHeadOk 0).trace.countP (Event.isHeadEffect demoExt) = 3 ∧
    (Rule.Evaluate demoExt demoHeadOk 0).trace.countP Event.isMatchRule = 1 ∧
    (Rule.Evaluate demoExt demoHeadFail 0).matchedValues = [] ∧
    (Rule.Evaluate demoExt demoHeadFail 0).trace.countP (Event.isHeadEffect demoExt) = 0 := by
  decide

/-! ## The transformation pipeline -/

theorem multimatch_getLast (ts : List ruleTransformationParams) (v : String) :
    (Rule.executeTransformationsMultimatch ts v).getLast? =
      some (Rule.executeTransformations ts v) := by
  induction ts generalizing v with
  | nil => rfl
  | cons t ts ih =>
    rw [multimatch_cons]
    have hne : Rule.executeTransformationsMultimatch ts (t.Function v) ≠ [] := by
      intro h
      have := congrArg List.length h
      rw [multimatch_eq_scanl, List.length_scanl] at this
      simp at this
    obtain ⟨y, ys, hy⟩ := List.exists_cons_of_ne_nil hne
    have := ih (t.Function v)
    rw [hy] at this ⊢
    rw [List.getLast?_cons_cons, this]
    rfl

theorem executeTransformations_eq_compose (ts : List ruleTransformationParams) (v : String) :
    Rule.executeTransformations ts v = composeInOrder ts v := by
  unfold Rule.executeTransformations
  induction ts generalizing v with
  | nil => rfl
  | cons t ts ih => rw [List.foldl_cons, ih, composeInOrder]

/-- C20. For every list of transformations (those of any rule) and every input `v`,
`executeTransformations(v)` is the last element of
`executeTransformationsMultimatch(v)` and is the composition `tn(...t1(v))` of the
transformations in declaration order; after `ClearTransformations` the
single-match result is `v` and the multi-match list is `[v]`. -/
theorem single_match_is_last_candidate (r : Rule) (v : String) :
    (Rule.executeTransformationsMultimatch r.fields.transformations v).getLast? =
      some (Rule.executeTransformations r.fields.transformations v) ∧
    Rule.executeTransformations r.fields.transformations v =
      composeInOrder r.fields.transformations v ∧
    Rule.executeTransformations r.ClearTransformations.fields.transformations v = v ∧
    Rule.executeTransformationsMultimatch r.ClearTransformations.fields.transformations v = [v] ∧
    r.ClearTransformations.candidates v = [v] :=
  ⟨multimatch_getLast _ v, executeTransformations_eq_compose _ v, rfl, rfl, by
    simp only [Rule.candidates, Rule.ClearTransformations, Rule.fields,
      Rule.executeTransformations, Rule.executeTransformationsMultimatch, List.foldl_nil]
    split <;> rfl⟩

/-! ## The rule builder -/

/-- C13. After `SetOperator(op, f, params)` the operator of the rule is present with
`Operator = op`, `Function = f`, `Data = params`, and `Negation` true exactly when
`f` is non-empty and starts with `!`; for the empty name the call goes through and
`Negation` is false.  Every other field of the rule, and its chain, stay. -/
theorem SetOperator_sets_negation (r : Rule) (op : RuleOperator) (f params : String) :
    (r.SetOperator op f params).fields.operator =
      some { Operator := op, Function := f, Data := params, Negation := startsWithBang f } ∧
    (startsWithBang f = true ↔ ∃ rest, f.data = '!' :: rest) ∧
    (r.SetOperator op "" params).fields.operator =
      some { Operator := op, Function := "", Data := params, Negation := false } ∧
    (r.SetOperator op f params).Chain = r.Chain ∧
    { (r.SetOperator op f params).fields with operator := r.fields.operator } = r.fields := by
  refine ⟨rfl, ?_, rfl, rfl, rfl⟩
  unfold startsWithBang
  cases hd : f.data with
  | nil => simp
  | cons c rest =>
    simp only [beq_iff_eq, List.cons.injEq, exists_eq_right']

theorem negationLoop_upto (v : RuleVariable) (x : ruleVariableException)
    (vars : List ruleVariableParams) (k : Nat) (hk : k ≤ vars.length) :
    (List.range k).foldl
      (fun (st : List ruleVariableParams × Nat) i =>
        match st.1[i]? with
        | some rv =>
          if rv.Variable = v then
            (st.1.set i { rv with Exceptions := rv.Exceptions ++ [x] }, st.2 + 1)
          else st
        | none => st)
      (vars, 0)
    = ((vars.take k).map (addException v x) ++ vars.drop k,
        (vars.take k).countP (fun rv => rv.Variable = v)) := by
  induction k with
  | zero => simp
  | succ k ih =>
    have hlt : k < vars.length := hk
    rw [List.range_succ, List.foldl_append, ih (Nat.le_of_lt hlt)]
    have hlen : (List.map (addException v x) (List.take k vars)).length = k := by
      simp [List.length_take]; omega
    have hdrop : List.drop k vars = vars[k] :: List.drop (k + 1) vars :=
      List.drop_eq_getElem_cons hlt
    have htake : List.take (k + 1) vars = List.take k vars ++ [vars[k]] := by
      rw [List.take_succ, List.getElem?_eq_getElem hlt]; rfl
    simp only [List.foldl_cons, List.foldl_nil]
    rw [hdrop, htake]
    have hget :
        (List.map (addException v x) (List.take k vars) ++ vars[k] :: List.drop (k + 1) vars)[k]?
          = some vars[k] := by
      rw [List.getElem?_append_right (by omega), hlen]; simp
    rw [hget]
    simp only
    by_cases hv : vars[k].Variable = v
    · simp only [hv, if_true]
      rw [List.set_append_right _ _ (by omega), hlen]
      simp only [Nat.sub_self, List.set_cons_zero, List.map_append, List.map_cons, List.map_nil,
        List.append_assoc, List.singleton_append, List.countP_append, List.countP_cons,
        List.countP_nil, addException, hv, if_true, decide_True, Nat.zero_add]
    · simp only [hv, if_false]
      simp only [List.map_append, List.map_cons, List.map_nil,
        List.append_assoc, List.singleton_append, List.countP_append, List.countP_cons,
        List.countP_nil, addException, hv, if_false, decide_False, Nat.add_zero]
      simp

/-- The loop of lines 430-436 adds the exception to every entry for the variable,
in place, and counts those entries. -/
theorem negationLoop_eq (v : RuleVariable) (x : ruleVariableException)
    (vars : List ruleVariableParams) :
    negationLoop v x vars =
      (vars.map (addException v x), vars.countP (fun rv => rv.Variable = v)) := by
  unfold negationLoop
  rw [negationLoop_upto v x vars vars.length (Nat.le_refl _)]
  simp

theorem map_addException_of_absent (v : RuleVariable) (x : ruleVariableException)
    (vars : List ruleVariableParams) (h : ∀ rv ∈ vars, rv.Variable ≠ v) :
    vars.map (addException v x) = vars := by
  induction vars with
  | nil => rfl
  | cons rv rest ih =>
    have h1 : rv.Variable ≠ v := h rv (by simp)
    rw [List.map_cons, ih (fun w hw => h w (by simp [hw]))]
    simp [addException, h1]

theorem Rule.setVariables_self (r : Rule) : r.setVariables r.fields.ruleVariables = r := by
  cases r; rfl

theorem negation_valid_key (r : Rule) (v : RuleVariable) (x : ruleVariableException) :
    ((∀ rv ∈ r.fields.ruleVariables, rv.Variable ≠ v) →
      (if (negationLoop v x r.fields.ruleVariables).2 = 0 then
          (r.setVariables (negationLoop v x r.fields.ruleVariables).1,
            some (RuleError.variableNotUsed v))
        else (r.setVariables (negationLoop v x r.fields.ruleVariables).1, none))
        = (r, some (RuleError.variableNotUsed v))) ∧
    ((∃ rv ∈ r.fields.ruleVariables, rv.Variable = v) →
      (if (negationLoop v x r.fields.ruleVariables).2 = 0 then
          (r.setVariables (negationLoop v x r.fields.ruleVariables).1,
            some (RuleError.variableNotUsed v))
        else (r.setVariables (negationLoop v x r.fields.ruleVariables).1, none))
        = (r.setVariables (r.fields.ruleVariables.map (addException v x)), none)) := by
  rw [negationLoop_eq]
  constructor
  · intro h
    have hc : List.countP (fun rv => decide (rv.Variable = v)) r.fields.ruleVariables = 0 := by
      rw [List.countP_eq_zero]
      intro rv hrv
      simpa using h rv hrv
    simp only [hc, if_true]
    rw [map_addException_of_absent v x _ h, Rule.setVariables_self]
  · rintro ⟨rv, hrv, hv⟩
    have hc : List.countP (fun rv => decide (rv.Variable = v)) r.fields.ruleVariables ≠ 0 := by
      intro h0
      rw [List.countP_eq_zero] at h0
      exact absurd hv (by simpa using h0 rv hrv)
    simp only [hc, if_false]

/-- C11. `AddVariable(v, k, c)` succeeds for a string, a compiled regex and nil: the
variables of the rule get one more entry at the end, the earlier ones as they
were, and the new entry has `Variable = v`, `Count = c`, no exceptions, `KeyRx = k`
for a regex and nil otherwise, `KeyStr = lowercase(k)` for a string (the source of
the regex for a regex, empty for nil).  For a key of any other type it fails with
the invalid-key error and leaves the rule as it was. -/
theorem AddVariable_appends (toLower : String → String) (r : Rule) (v : RuleVariable)
    (c : Bool) :
    (∀ s, r.AddVariable toLower v (.str s) c =
      (r.setVariables (r.fields.ruleVariables ++
        [{ Name := "", Count := c, Variable := v, KeyRx := none, KeyStr := toLower s,
           Exceptions := [] }]), none)) ∧
    (∀ re, r.AddVariable toLower v (.regex re) c =
      (r.setVariables (r.fields.ruleVariables ++
        [{ Name := "", Count := c, Variable := v, KeyRx := some re, KeyStr := re.source,
           Exceptions := [] }]), none)) ∧
    r.AddVariable toLower v .nil c =
      (r.setVariables (r.fields.ruleVariables ++
        [{ Name := "", Count := c, Variable := v, KeyRx := none, KeyStr := "",
           Exceptions := [] }]), none) ∧
    (∀ t, r.AddVariable toLower v (.other t) c =
      (r, some (RuleError.invalidKeyType (.other t)))) ∧
    (∀ vars, (r.setVariables vars).fields.ruleVariables = vars ∧
      (r.setVariables vars).Chain = r.Chain ∧
      { (r.setVariables vars).fields with ruleVariables := r.fields.ruleVariables } = r.fields) :=
  ⟨fun _ => rfl, fun _ => rfl, rfl, fun _ => rfl, fun _ => ⟨rfl, rfl, rfl⟩⟩

/-- C12. `AddVariableNegation(v, k)` fails with the empty-key error for the empty
string and for a regex with empty source, and with the no-such-variable error when
no entry of the variables is for `v`; in these cases the rule is left as it was.
Otherwise (a non-empty string, or a regex with non-empty source, and some entry
for `v`) it succeeds and adds one exception built from `k` at the end of the
exceptions of every entry for `v`; all other entries, and the order, stay.  A key
that is neither a string nor a regex is refused, the rule left as it was. -/
theorem AddVariableNegation_spec (r : Rule) (v : RuleVariable) :
    r.AddVariableNegation v (.str "") = (r, some RuleError.emptyNegationKey) ∧
    r.AddVariableNegation v (.regex ⟨""⟩) = (r, some RuleError.emptyNegationRegex) ∧
    (∀ s, s ≠ "" →
      ((∀ rv ∈ r.fields.ruleVariables, rv.Variable ≠ v) →
        r.AddVariableNegation v (.str s) = (r, some (RuleError.variableNotUsed v))) ∧
      ((∃ rv ∈ r.fields.ruleVariables, rv.Variable = v) →
        r.AddVariableNegation v (.str s) =
          (r.setVariables (r.fields.ruleVariables.map
            (addException v { KeyStr := s, KeyRx := none })), none))) ∧
    (∀ re : Regexp, re.source ≠ "" →
      ((∀ rv ∈ r.fields.ruleVariables, rv.Variable ≠ v) →
        r.AddVariableNegation v (.regex re) = (r, some (RuleError.variableNotUsed v))) ∧
      ((∃ rv ∈ r.fields.ruleVariables, rv.Variable = v) →
        r.AddVariableNegation v (.regex re) =
          (r.setVariables (r.fields.ruleVariables.map
            (addException v { KeyStr := re.source, KeyRx := some re })), none))) ∧
    r.AddVariableNegation v .nil = (r, some (RuleError.invalidNegationInput .nil)) ∧
    (∀ t, r.AddVariableNegation v (.other t) =
      (r, some (RuleError.invalidNegationInput (.other t)))) := by
  refine ⟨rfl, rfl, ?_, ?_, rfl, fun _ => rfl⟩
  · intro s hs
    have := negation_valid_key r v { KeyStr := s, KeyRx := none }
    simpa [Rule.AddVariableNegation, hs] using this
  · intro re hre
    have := negation_valid_key r v { KeyStr := re.source, KeyRx := some re }
    simpa [Rule.AddVariableNegation, hre] using this

theorem AddVariableNegation_spec_witness :
    ("q" : String) ≠ "" ∧
    (∃ rv ∈ demoHeadOk.fields.ruleVariables, rv.Variable = 2) ∧
    demoHeadOk.AddVariableNegation 2 (.str "q") =
      (demoHeadOk.setVariables (demoHeadOk.fields.ruleVariables.map
        (addException 2 { KeyStr := "q", KeyRx := none })), none) :=
  ⟨by decide, ⟨_, List.mem_cons_self _ _, rfl⟩,
    ((AddVariableNegation_spec demoHeadOk 2).2.2.1 "q" (by decide)).2
      ⟨_, List.mem_cons_self _ _, rfl⟩⟩

/-! ## What the rule announces and asks for -/

theorem mergeExceptions_eq (ecol : List ruleVariableParams) (v : ruleVariableParams) :
    mergeExceptions ecol v =
      { v with Exceptions := v.Exceptions ++
          (ecol.filter (fun c => c.Variable = v.Variable)).map runtimeException } := by
  unfold mergeExceptions
  induction ecol generalizing v with
  | nil => simp
  | cons c rest ih =>
    rw [List.foldl_cons]
    by_cases hc : c.Variable = v.Variable
    · simp only [hc, if_true]
      rw [ih]
      simp [List.filter_cons, hc, runtimeException]
    · simp only [hc, if_false]
      rw [ih]
      simp [List.filter_cons, hc]

theorem evalValues_getFieldSpecs (ext : Externals Tx) (r : Rule) (o : ruleOperatorParams)
    (v : ruleVariableParams) (values : List MatchData) (st : EvalState Tx) :
    (Rule.evalValues ext r o v values st).trace.filterMap Event.getFieldSpec
      = st.trace.filterMap Event.getFieldSpec := by
  unfold Rule.evalValues
  refine foldl_preserves
    (fun s => s.trace.filterMap Event.getFieldSpec = st.trace.filterMap Event.getFieldSpec)
    _ ?_ values st rfl
  intro b arg hb
  unfold Rule.evalCandidates
  refine foldl_preserves
    (fun s => s.trace.filterMap Event.getFieldSpec = st.trace.filterMap Event.getFieldSpec)
    _ ?_ _ b hb
  intro b' carg hb'
  simp only [List.filterMap_append, hb']
  simp [Event.getFieldSpec]

theorem evalVariables_getFieldSpecs (ext : Externals Tx) (r : Rule) (o : ruleOperatorParams)
    (ecol : List ruleVariableParams) (vars : List ruleVariableParams) (st : EvalState Tx) :
    (vars.foldl
      (fun st v0 =>
        if (ext.GetField st.tx (mergeExceptions ecol v0)).length = 0 then
          { st with trace := st.trace ++ [Event.getField r (mergeExceptions ecol v0)] }
        else Rule.evalValues ext r o (mergeExceptions ecol v0)
          (ext.GetField st.tx (mergeExceptions ecol v0))
          { st with trace := st.trace ++ [Event.getField r (mergeExceptions ecol v0)] })
      st).trace.filterMap Event.getFieldSpec
      = st.trace.filterMap Event.getFieldSpec ++ vars.map (mergeExceptions ecol) := by
  induction vars generalizing st with
  | nil => simp
  | cons v0 rest ih =>
    rw [List.foldl_cons, ih]
    by_cases hv : (ext.GetField st.tx (mergeExceptions ecol v0)).length = 0
    · simp [hv, List.filterMap_append, Event.getFieldSpec]
    · simp only [hv, if_false, evalValues_getFieldSpecs]
      simp [List.filterMap_append, Event.getFieldSpec]

/-- The calls of an evaluation: those before the test of line 310, then, if the
rule matched, `tx.MatchVariable`, its NonDisruptive actions, the calls of the
chained rules, and the calls of lines 343-366. -/
theorem Evaluate_trace_split (ext : Externals Tx) (r : Rule) (tx : Tx) :
    ((Rule.matchOwn ext r tx).matchedValues = [] →
      (Rule.Evaluate ext r tx).trace = (Rule.matchOwn ext r tx).trace) ∧
    ((Rule.matchOwn ext r tx).matchedValues ≠ [] →
      ∃ tr tl,
        (Rule.Evaluate ext r tx).trace =
          (Rule.matchOwn ext r tx).trace ++
            Event.matchVariable r ((Rule.matchOwn ext r tx).matchedValues.headD {}) ::
            ((r.fields.actions.filter
              (fun a => isNondisruptive (ext.actionType a.Function))).map (Event.action r) ++
              (tr ++ tl)) ∧
        (∀ e ∈ tr, e.caller ∈ chainRules r.Chain) ∧
        (∀ e ∈ tl, e.isMatchRule = true ∨ e.isAction = true)) := by
  constructor
  · intro h0
    rw [Rule.Evaluate_eq]; simp [h0]
  · intro h0
    obtain ⟨ms, tr, _, h2, h3, _, h5⟩ := Evaluate_decompose ext r tx h0
    by_cases hb : (Rule.evaluateChain ext r.Chain
        (Rule.afterMatch ext r (Rule.matchOwn ext r tx))).1 = true
    · refine ⟨tr, headTail ext r (Rule.evaluateChain ext r.Chain
        (Rule.afterMatch ext r (Rule.matchOwn ext r tx))).2, ?_, fun e he => (h3 e he).1, ?_⟩
      · rw [h5]
        simp only [hb, if_true, headEffects_trace, h2]
        simp
      · intro e he
        unfold headTail at he
        by_cases hp : r.fields.ParentId = 0
        · simp only [hp, if_true, List.mem_append, List.mem_map] at he
          rcases he with he | ⟨a, _, rfl⟩
          · by_cases hl : r.fields.Log = true
            · simp only [hl, if_true, List.mem_singleton] at he
              subst he; exact Or.inl rfl
            · simp [hl] at he
          · exact Or.inr rfl
        · simp [hp] at he
    · refine ⟨tr, [], ?_, fun e he => (h3 e he).1, by simp⟩
      rw [h5]
      simp only [hb, h2]
      simp

/-- C17, as stated, fails: `SecAction` has no operator, and `Rule.Evaluate` calls
`tx.MatchVariable` for it. -/
theorem matchVariable_counterexample :
    demoSecAction.fields.operator = none ∧
    (Rule.Evaluate demoExt demoSecAction 0).trace.countP Event.isMatchVariable = 1 := by
  decide

/-- C17, amended. `Rule.Evaluate` calls `tx.MatchVariable` for a rule exactly when
the rule's own list of matches is non-empty, whether it has an operator or not:
once, with the first element of that list, after the lookups and right before
the rule's NonDisruptive actions.  For a rule without operator the list is the
forced match, so the call is made with `MatchData{Key: "", Value: ""}`.  When the
own list is empty no call to `tx.MatchVariable` is made at all. -/
theorem matchVariable_announces_first_match (ext : Externals Tx) (r : Rule) (tx : Tx) :
    ((Rule.matchOwn ext r tx).matchedValues = [] →
      ∀ e ∈ (Rule.Evaluate ext r tx).trace, e.isMatchVariable = false) ∧
    ((Rule.matchOwn ext r tx).matchedValues ≠ [] →
      ∃ post,
        (Rule.Evaluate ext r tx).trace =
          (Rule.matchOwn ext r tx).trace ++
            Event.matchVariable r ((Rule.matchOwn ext r tx).matchedValues.headD {}) ::
            ((r.fields.actions.filter
              (fun a => isNondisruptive (ext.actionType a.Function))).map (Event.action r) ++
              post) ∧
        (∀ e ∈ (Rule.matchOwn ext r tx).trace, e.isMatchVariable = false) ∧
        (∀ md, Event.matchVariable r md ∉ post)) ∧
    (r.fields.operator = none →
      (Rule.matchOwn ext r tx).matchedValues = [{ Key := "", Value := "" }] ∧
      (Rule.matchOwn ext r tx).trace = [Event.evaluate r]) := by
  have hlook : ∀ e ∈ (Rule.matchOwn ext r tx).trace, e.isMatchVariable = false := by
    intro e he
    have := (matchOwn_trace ext r tx e he).2
    cases e <;> simp_all [Event.isLookup, Event.isMatchVariable]
  refine ⟨?_, ?_, ?_⟩
  · intro h0 e he
    rw [(Evaluate_trace_split ext r tx).1 h0] at he
    exact hlook e he
  · intro h0
    obtain ⟨tr, tl, h1, h2, h3⟩ := (Evaluate_trace_split ext r tx).2 h0
    refine ⟨tr ++ tl, h1, hlook, ?_⟩
    intro md hmd
    simp only [List.mem_append] at hmd
    rcases hmd with hmd | hmd
    · exact Rule.not_mem_chained r (h2 _ hmd)
    · rcases h3 _ hmd with h | h <;> simp [Event.isMatchRule, Event.isAction] at h
  · intro hop
    unfold Rule.matchOwn
    rw [hop]
    exact ⟨rfl, rfl⟩

theorem matchVariable_announces_first_match_witness :
    (Rule.matchOwn demoExt demoSecAction 0).matchedValues ≠ [] ∧
    demoSecAction.fields.operator = none ∧
    (∃ post,
      (Rule.Evaluate demoExt demoSecAction 0).trace =
        (Rule.matchOwn demoExt demoSecAction 0).trace ++
          Event.matchVariable demoSecAction
            ((Rule.matchOwn demoExt demoSecAction 0).matchedValues.headD {}) ::
          ((demoSecAction.fields.actions.filter
            (fun a => isNondisruptive (demoExt.actionType a.Function))).map
              (Event.action demoSecAction) ++ post) ∧
      (∀ e ∈ (Rule.matchOwn demoExt demoSecAction 0).trace, e.isMatchVariable = false) ∧
      (∀ md, Event.matchVariable demoSecAction md ∉ post)) ∧
    (Rule.matchOwn demoExt demoSecAction 0).matchedValues = [{ Key := "", Value := "" }] ∧
    (Rule.matchOwn demoExt demoSecAction 0).trace = [Event.evaluate demoSecAction] :=
  ⟨by decide, rfl,
    (matchVariable_announces_first_match demoExt demoSecAction 0).2.1 (by decide),
    (matchVariable_announces_first_match demoExt demoSecAction 0).2.2 rfl⟩

/-- C18. For a rule with an operator, the specs passed to `tx.GetField` by the rule
are, in the order of its variables, each variable `v` with its `Exceptions`
followed by one `{KeyStr: c.KeyStr, KeyRx: nil}` for each entry `c` of
`tx.ruleRemoveTargetById[r.Id]` (read on the transaction as it is after line 225)
with `c.Variable == v.Variable`, in the order of that list, and nothing else;
every other field of `v` is passed as it is.  All further calls to `tx.GetField`
during the evaluation are made by chained rules, so without a chain these are all
the calls to `tx.GetField` of the evaluation. -/
theorem getField_specs (ext : Externals Tx) (r : Rule) (tx : Tx) (o : ruleOperatorParams)
    (hop : r.fields.operator = some o) :
    (Rule.matchOwn ext r tx).trace.filterMap Event.getFieldSpec =
      r.fields.ruleVariables.map (fun v =>
        ruleVariableParams.mk v.Name v.Count v.Variable v.KeyRx v.KeyStr
          (v.Exceptions ++
            ((ext.ruleRemoveTargetById
                (ext.setData tx ext.vRule
                  [("id", [toString (if r.fields.Id = 0 then r.fields.ParentId else r.fields.Id)]),
                   ("msg", [r.fields.Msg]), ("rev", [r.fields.Rev]),
                   ("logdata", [ext.MacroExpansion tx r.fields.LogData]),
                   ("severity", [ext.severityString r.fields.Severity])])
                r.fields.Id).filter (fun c => c.Variable = v.Variable)).map
              (fun c => ruleVariableException.mk c.KeyStr none))) ∧
    (∃ rest,
      (Rule.Evaluate ext r tx).trace = (Rule.matchOwn ext r tx).trace ++ rest ∧
      ∀ v, Event.getField r v ∉ rest) ∧
    (r.Chain = none →
      (Rule.Evaluate ext r tx).trace.filterMap Event.getFieldSpec =
        (Rule.matchOwn ext r tx).trace.filterMap Event.getFieldSpec) := by
  refine ⟨?_, ?_, ?_⟩
  · unfold Rule.matchOwn
    rw [hop]
    simp only
    unfold Rule.evalVariables
    rw [evalVariables_getFieldSpecs]
    simp only [List.filterMap_cons, List.filterMap_nil, Event.getFieldSpec, List.nil_append]
    apply List.map_congr_left
    intro v _
    rw [mergeExceptions_eq]
    rfl
  · by_cases h0 : (Rule.matchOwn ext r tx).matchedValues = []
    · exact ⟨[], by rw [(Evaluate_trace_split ext r tx).1 h0]; simp, by simp⟩
    · obtain ⟨tr, tl, h1, h2, h3⟩ := (Evaluate_trace_split ext r tx).2 h0
      refine ⟨_, h1, ?_⟩
      intro v hv
      simp only [List.mem_cons, List.mem_append, List.mem_map] at hv
      rcases hv with hv | ⟨a, _, ha⟩ | hv | hv
      · cases hv
      · cases ha
      · exact Rule.not_mem_chained r (h2 _ hv)
      · rcases h3 _ hv with h | h <;> simp [Event.isMatchRule, Event.isAction] at h
  · intro hc
    by_cases h0 : (Rule.matchOwn ext r tx).matchedValues = []
    · rw [(Evaluate_trace_split ext r tx).1 h0]
    · obtain ⟨tr, tl, h1, h2, h3⟩ := (Evaluate_trace_split ext r tx).2 h0
      have htr : tr = [] := by
        cases tr with
        | nil => rfl
        | cons e es =>
          have := h2 e (by simp)
          rw [hc, chainRules_none] at this
          simp at this
      have hnone : ∀ e ∈ tl, Event.getFieldSpec e = none := by
        intro e he
        rcases h3 e he with h | h <;> cases e <;>
          simp_all [Event.isMatchRule, Event.isAction, Event.getFieldSpec]
      have htl : tl.filterMap Event.getFieldSpec = [] := by
        rw [List.filterMap_eq_nil_iff]
        exact hnone
      rw [h1, htr]
      simp [List.filterMap_append, List.filterMap_map, Event.getFieldSpec, htl]

theorem getField_specs_witness :
    demoTargeted.fields.operator = some ⟨2, "@streq", "/login", false⟩ ∧
    demoTargeted.Chain = none ∧
    demoExtTargets.ruleRemoveTargetById 0 demoTargeted.fields.Id =
      [{ Variable := 2, KeyStr := "a" }, { Variable := 1, KeyStr := "b" },
       { Variable := 2, KeyStr := "c" }] ∧
    (Rule.matchOwn demoExtTargets demoTargeted 0).trace.filterMap Event.getFieldSpec =
      [{ Variable := 2, Exceptions := [⟨"x", none⟩, ⟨"a", none⟩, ⟨"c", none⟩] },
       { Variable := 1, KeyStr := "q", Exceptions := [⟨"b", none⟩] },
       { Variable := 3 }] ∧
    (Rule.Evaluate demoExtTargets demoTargeted 0).trace.filterMap Event.getFieldSpec =
      [{ Variable := 2, Exceptions := [⟨"x", none⟩, ⟨"a", none⟩, ⟨"c", none⟩] },
       { Variable := 1, KeyStr := "q", Exceptions := [⟨"b", none⟩] },
       { Variable := 3 }] :=
  ⟨rfl, rfl, rfl,
    (getField_specs demoExtTargets demoTargeted 0 ⟨2, "@streq", "/login", false⟩ rfl).1.trans
      (by decide),
    ((getField_specs demoExtTargets demoTargeted 0 ⟨2, "@streq", "/login", false⟩ rfl).2.2
      rfl).trans
      ((getField_specs demoExtTargets demoTargeted 0 ⟨2, "@streq", "/login", false⟩ rfl).1.trans
        (by decide))⟩

/-! ## Chains of more than one rule -/

/-- C19 on a chain of two rules that all match: one call of `Rule.Evaluate` on the
head evaluates the last rule twice (once in the walk of the first chained rule,
once in the walk of the head), its NonDisruptive action runs twice, and its match
is returned twice. -/
theorem chain_of_two_evaluates_last_rule_twice :
    (Rule.Evaluate demoExt demoChainOfTwo 0).matchedValues =
      [{ VariableName := "REQUEST_URI", Variable := 2, Key := "", Value := "/login" },
       { VariableName := "ARGS", Variable := 1, Key := "q", Value := "attack" },
       { VariableName := "ARGS_POST", Variable := 6, Key := "p", Value := "attack" },
       { VariableName := "ARGS_POST", Variable := 6, Key := "p", Value := "attack" }] ∧
    (Rule.Evaluate demoExt demoChainOfTwo 0).trace.countP (Event.entersRaw "c1") = 1 ∧
    (Rule.Evaluate demoExt demoChainOfTwo 0).trace.countP (Event.entersRaw "c2") = 2 ∧
    (Rule.Evaluate demoExt demoChainOfTwo 0).trace.countP (Event.actsRaw "c2") = 2 := by
  decide

/-! ## The multipart body processor -/

theorem StringsMap.get_set (m : StringsMap) (k : String) (v : List String) (k2 : String) :
    (m.set k v).get k2 = if k = k2 then some v else m.get k2 := by
  induction m with
  | nil => simp [StringsMap.set, StringsMap.get]
  | cons e rest ih =>
    obtain ⟨k1, v1⟩ := e
    by_cases h1 : k1 = k
    · subst h1
      simp only [StringsMap.set, StringsMap.get, if_true]
      by_cases h2 : k1 = k2 <;> simp [h2]
    · simp only [StringsMap.set, h1, if_false, StringsMap.get, ih]
      by_cases h2 : k1 = k2
      · subst h2
        have : ¬ k = k1 := fun h => h1 h.symm
        simp [this]
      · simp [h2]

theorem StringsMap.valueBytes_cons (k : String) (v : List String) (rest : StringsMap) :
    StringsMap.valueBytes ((k, v) :: rest) =
      (v.map (fun (x : String) => (x.utf8ByteSize : Int))).sum + StringsMap.valueBytes rest := by
  simp [StringsMap.valueBytes, List.flatMap_cons]

theorem StringsMap.valueBytes_nonneg (m : StringsMap) : 0 ≤ m.valueBytes := by
  unfold StringsMap.valueBytes
  apply List.sum_nonneg
  intro x hx
  simp only [List.mem_map] at hx
  obtain ⟨v, _, rfl⟩ := hx
  exact Int.ofNat_nonneg _

/-- Appending one value to the entry of a key adds the bytes of that value. -/
theorem StringsMap.valueBytes_append (m : StringsMap) (k : String) (d : String) :
    (m.set k (((m.get k).getD []) ++ [d])).valueBytes = m.valueBytes + d.utf8ByteSize := by
  induction m with
  | nil => simp [StringsMap.set, StringsMap.get, StringsMap.valueBytes]
  | cons e rest ih =>
    obtain ⟨k1, v1⟩ := e
    by_cases h1 : k1 = k
    · subst h1
      simp only [StringsMap.set, StringsMap.get, if_true, Option.getD_some,
        StringsMap.valueBytes_cons, List.map_append, List.sum_append, List.map_cons,
        List.map_nil, List.sum_cons, List.sum_nil]
      omega
    · simp only [StringsMap.set, StringsMap.get, h1, if_false, StringsMap.valueBytes_cons, ih]
      omega

theorem int64_add (a b : Int) : int64 (int64 a + b) = int64 (a + b) := by
  unfold int64; omega

theorem int64_of_small (a : Int) (h0 : 0 ≤ a) (h : a < 9223372036854775808) : int64 a = a := by
  unfold int64; omega

/-- The loop keeps `totalSize` equal to the `int64` sum of the file sizes written
into `fileSizes` and of the bytes of the field values stored so far. -/
theorem readParts_sizes {Reader : Type} (lib : MultipartLib Reader) (storagePath : String)
    (results : List (Except String Part)) (st st2 : ReadState) (sizes : List Int)
    (h : readParts lib storagePath results st = .ok st2)
    (hs : st.fileSizes = sizes.map sprintfD) (hn : ∀ n ∈ sizes, 0 ≤ n)
    (ht : st.totalSize = int64 (sizes.sum + st.postFields.valueBytes)) :
    ∃ sizes2 : List Int, st2.fileSizes = sizes2.map sprintfD ∧ (∀ n ∈ sizes2, 0 ≤ n) ∧
      st2.totalSize = int64 (sizes2.sum + st2.postFields.valueBytes) := by
  induction results generalizing st sizes with
  | nil =>
    simp only [readParts, Except.ok.injEq] at h
    subst h
    exact ⟨sizes, hs, hn, ht⟩
  | cons res rest ih =>
    cases res with
    | error e => simp [readParts] at h
    | ok p =>
      rw [readParts] at h
      by_cases hf : originFileName lib p ≠ ""
      · rw [if_pos hf] at h
        cases hc : lib.createTemp storagePath st.fileList.length with
        | error e => simp [hc] at h
        | ok temp =>
          cases hcp : lib.copy temp p with
          | error e => simp [hc, hcp] at h
          | ok sz =>
            simp only [hc, hcp] at h
            refine ih _ (sizes ++ [(sz : Int)]) h ?_ ?_ ?_
            · simp [hs]
            · intro n hn2
              simp only [List.mem_append, List.mem_singleton] at hn2
              rcases hn2 with hn2 | hn2
              · exact hn n hn2
              · subst hn2; exact Int.ofNat_nonneg _
            · simp only [ht, int64_add, List.sum_append, List.sum_cons, List.sum_nil]
              congr 1
              omega
      · rw [if_neg hf] at h
        cases hr : lib.readAll p with
        | error e => simp [hr] at h
        | ok data =>
          simp only [hr] at h
          refine ih _ sizes h hs hn ?_
          simp only [ht, int64_add, StringsMap.valueBytes_append]
          congr 1
          omega

theorem fieldValues_cons (name : String) (n d : String) (fields : List (String × String)) :
    fieldValues name ((n, d) :: fields) =
      if n = name then d :: fieldValues name fields else fieldValues name fields := by
  unfold fieldValues
  by_cases h : n = name <;> simp [List.filter_cons, h]

theorem fieldValues_eq_nil_iff (name : String) (fields : List (String × String)) :
    fieldValues name fields = [] ↔ name ∉ fields.map Prod.fst := by
  induction fields with
  | nil => simp [fieldValues]
  | cons f rest ih =>
    obtain ⟨n, d⟩ := f
    rw [fieldValues_cons]
    by_cases h : n = name
    · simp [h]
    · have h2 : ¬ name = n := fun e => h e.symm
      simp [h, h2, ih]

/-- The loop appends the names of the fields it reads to `postNames` and their
values to the entry of their name in `postFields`. -/
theorem readParts_fields {Reader : Type} (lib : MultipartLib Reader) (storagePath : String)
    (results : List (Except String Part)) (st st2 : ReadState)
    (h : readParts lib storagePath results st = .ok st2) :
    st2.postNames = st.postNames ++ (bodyFields lib results).map Prod.fst ∧
    (∀ name, st2.postFields.get name =
      appendValues (st.postFields.get name) (fieldValues name (bodyFields lib results))) ∧
    (bodyFields lib results).map Prod.fst = fieldPartNames lib results := by
  induction results generalizing st with
  | nil =>
    simp only [readParts, Except.ok.injEq] at h
    subst h
    simp [bodyFields, fieldValues, appendValues, fieldPartNames]
  | cons res rest ih =>
    cases res with
    | error e => simp [readParts] at h
    | ok p =>
      rw [readParts] at h
      by_cases hf : originFileName lib p ≠ ""
      · rw [if_pos hf] at h
        cases hc : lib.createTemp storagePath st.fileList.length with
        | error e => simp [hc] at h
        | ok temp =>
          cases hcp : lib.copy temp p with
          | error e => simp [hc, hcp] at h
          | ok sz =>
            simp only [hc, hcp] at h
            have := ih _ h
            simpa [bodyFields, fieldPartNames, hf] using this
      · rw [if_neg hf] at h
        cases hr : lib.readAll p with
        | error e => simp [hr] at h
        | ok data =>
          simp only [hr] at h
          obtain ⟨h1, h2, h3⟩ := ih _ h
          have hb : bodyFields lib (Except.ok p :: rest) =
              (p.FormName, data) :: bodyFields lib rest := by
            rw [bodyFields, if_neg hf, hr]
          have hp : fieldPartNames lib (Except.ok p :: rest) =
              p.FormName :: fieldPartNames lib rest := by
            rw [fieldPartNames, if_neg hf]
          refine ⟨?_, ?_, ?_⟩
          · rw [h1, hb]; simp
          · intro name
            rw [h2 name, hb, fieldValues_cons, StringsMap.get_set]
            by_cases hn : p.FormName = name
            · simp only [hn, if_true, appendValues]
              by_cases hv : fieldValues name (bodyFields lib rest) = [] <;> simp [hv]
            · simp only [hn, if_false]
          · rw [hb, hp, List.map_cons, h3]

theorem StringsMap.keys_set (m : StringsMap) (k : String) (v : List String) :
    (m.set k v).keys = if k ∈ m.keys then m.keys else m.keys ++ [k] := by
  induction m with
  | nil => simp [StringsMap.set, StringsMap.keys]
  | cons e rest ih =>
    obtain ⟨k1, v1⟩ := e
    simp only [StringsMap.keys] at ih ⊢
    by_cases h1 : k1 = k
    · subst h1
      simp [StringsMap.set]
    · have h2 : ¬ k = k1 := fun e => h1 e.symm
      simp only [StringsMap.set, h1, if_false, List.map_cons, ih, List.mem_cons, h2, false_or]
      by_cases hk : k ∈ List.map Prod.fst rest <;> simp [hk]

/-- The map `pn` of lines 91-94: each name seen is a key, once, with itself as value. -/
theorem postNamesMap_aux (names : List String) (pn : StringsMap) (hnd : pn.keys.Nodup) :
    (∀ name, (names.foldl (fun pn value => pn.set value [value]) pn).get name =
      if name ∈ names then some [name] else pn.get name) ∧
    (names.foldl (fun pn value => pn.set value [value]) pn).keys.Nodup ∧
    (∀ name, name ∈ (names.foldl (fun pn value => pn.set value [value]) pn).keys ↔
      name ∈ pn.keys ∨ name ∈ names) := by
  induction names generalizing pn with
  | nil => simp [hnd]
  | cons n rest ih =>
    have hnd2 : (pn.set n [n]).keys.Nodup := by
      rw [StringsMap.keys_set]
      by_cases hk : n ∈ pn.keys
      · simp only [hk, if_true]; exact hnd
      · simp only [hk, if_false]
        exact List.Nodup.append hnd (List.nodup_singleton n) (by simpa using hk)
    obtain ⟨h1, h2, h3⟩ := ih (pn.set n [n]) hnd2
    rw [List.foldl_cons]
    refine ⟨?_, h2, ?_⟩
    · intro name
      rw [h1 name, StringsMap.get_set]
      by_cases hr : name ∈ rest
      · simp [hr]
      · by_cases hn : n = name
        · subst hn; simp
        · have hn2 : ¬ name = n := fun e => hn e.symm
          simp [hr, hn, hn2]
    · intro name
      rw [h3 name, StringsMap.keys_set]
      by_cases hk : n ∈ pn.keys
      · simp only [hk, if_true, List.mem_cons]
        constructor
        · rintro (h | h)
          · exact Or.inl h
          · exact Or.inr (Or.inr h)
        · rintro (h | h | h)
          · exact Or.inl h
          · subst h; exact Or.inl hk
          · exact Or.inr h
      · simp only [hk, if_false, List.mem_append, List.mem_singleton, List.mem_cons]
        tauto

/-- A call of `Read` that returns nil went through every branch without error. -/
theorem Read_success {Reader : Type} (lib : MultipartLib Reader) (mbp mbp2 : multipartBodyProcessor)
    (reader : Reader) (options : Options)
    (h : mbp.Read lib reader options = ReadResult.returned mbp2 none) :
    ∃ mediaType params st,
      lib.parseMediaType options.Mime = .ok (mediaType, params) ∧
      beginsWith mediaType "multipart/" = true ∧
      readParts lib options.StoragePath (lib.nextParts reader (params "boundary")) {} = .ok st ∧
      mbp2.collections = some st.collections := by
  unfold multipartBodyProcessor.Read at h
  cases hp : lib.parseMediaType options.Mime with
  | error e => simp [hp] at h
  | ok res =>
    obtain ⟨mediaType, params⟩ := res
    simp only [hp] at h
    by_cases hb : beginsWith mediaType "multipart/" = true
    · simp only [hb, Bool.not_true, Bool.false_eq_true, if_false] at h
      cases hr : readParts lib options.StoragePath (lib.nextParts reader (params "boundary")) {} with
      | error e => simp [hr] at h
      | ok st =>
        simp only [hr, ReadResult.returned.injEq, and_true] at h
        exact ⟨mediaType, params, st, rfl, hb, hr, by rw [← h]⟩
    · simp [hb] at h

/-- C14. For every call of `Read` that returns nil, the collections hold one
`FILES_COMBINED_SIZE[""]` entry, the decimal rendering of the `int64` sum of the
integers rendered in `FILES_SIZES[""]` and of the byte lengths of all the values
stored in `ARGS_POST`; that is the sum itself whenever it is below `2^63`. -/
theorem read_combined_size {Reader : Type} (lib : MultipartLib Reader)
    (mbp mbp2 : multipartBodyProcessor) (reader : Reader) (options : Options)
    (h : mbp.Read lib reader options = ReadResult.returned mbp2 none) :
    ∃ (c : CollectionsMap) (sizes : List Int),
      mbp2.collections = some c ∧
      c.FilesSizes = [("", sizes.map sprintfD)] ∧
      (∀ n ∈ sizes, 0 ≤ n) ∧
      c.FilesCombinedSize = [("", [sprintfD (int64 (sizes.sum + c.ArgsPost.valueBytes))])] ∧
      (sizes.sum + c.ArgsPost.valueBytes < 9223372036854775808 →
        c.FilesCombinedSize = [("", [sprintfD (sizes.sum + c.ArgsPost.valueBytes)])]) := by
  obtain ⟨mediaType, params, st, _, _, hr, hc⟩ := Read_success lib mbp mbp2 reader options h
  obtain ⟨sizes, h1, h2, h3⟩ :=
    readParts_sizes lib options.StoragePath _ {} st [] hr rfl (by simp)
      (by simp [StringsMap.valueBytes, int64])
  refine ⟨st.collections, sizes, hc, ?_, h2, ?_, ?_⟩
  · simp [ReadState.collections, h1]
  · simp [ReadState.collections, h3]
  · intro hlt
    have hnn : 0 ≤ sizes.sum + st.postFields.valueBytes :=
      Int.add_nonneg (List.sum_nonneg h2) (StringsMap.valueBytes_nonneg _)
    have hlt2 : sizes.sum + st.postFields.valueBytes < 9223372036854775808 := hlt
    simp only [ReadState.collections, h3, int64_of_small _ hnn hlt2]

theorem read_combined_size_witness :
    (multipartBodyProcessor.mk none).Read demoLib demoBody
        { Mime := "multipart/form-data; boundary=X", StoragePath := "/tmp" } =
      ReadResult.returned
        { collections := some
            { FilesNames := [("", ["f"])], FilesTmpNames := [("", ["/tmp/crzmp0"])],
              Files := [("", ["a.txt"])], FilesSizes := [("", ["5"])],
              ArgsPostNames := [("n", ["n"])], ArgsPost := [("n", ["1"])],
              Args := [("n", ["1"])], FilesCombinedSize := [("", ["6"])] } } none ∧
    ∃ (c : CollectionsMap) (sizes : List Int),
      (some
          { FilesNames := [("", ["f"])], FilesTmpNames := [("", ["/tmp/crzmp0"])],
            Files := [("", ["a.txt"])], FilesSizes := [("", ["5"])],
            ArgsPostNames := [("n", ["n"])], ArgsPost := [("n", ["1"])],
            Args := [("n", ["1"])], FilesCombinedSize := [("", ["6"])] } : Option CollectionsMap)
        = some c ∧
      c.FilesSizes = [("", sizes.map sprintfD)] ∧
      (∀ n ∈ sizes, 0 ≤ n) ∧
      c.FilesCombinedSize = [("", [sprintfD (int64 (sizes.sum + c.ArgsPost.valueBytes))])] ∧
      (sizes.sum + c.ArgsPost.valueBytes < 9223372036854775808 →
        c.FilesCombinedSize = [("", [sprintfD (sizes.sum + c.ArgsPost.valueBytes)])]) :=
  ⟨by decide,
    read_combined_size demoLib (multipartBodyProcessor.mk none) _ demoBody
      { Mime := "multipart/form-data; boundary=X", StoragePath := "/tmp" } (by decide)⟩

/-- C16. For every call of `Read` that returns nil, with the body seen as the list
of its parts: `ARGS` is the same mapping as `ARGS_POST`; `ARGS_POST` maps each form
name that occurs on a field part to the values of the fields of that name, in body
order, and has no other key; `ARGS_POST_NAMES` has exactly the distinct form names
of the field parts as keys, each once, mapped to the one-element list of the name.
The field parts are the parts whose `originFileName` is empty: parts with a
filename contribute to neither mapping. -/
theorem read_collects_fields {Reader : Type} (lib : MultipartLib Reader)
    (mbp mbp2 : multipartBodyProcessor) (reader : Reader) (options : Options)
    (h : mbp.Read lib reader options = ReadResult.returned mbp2 none) :
    ∃ (c : CollectionsMap) (mediaType : String) (params : String → String)
      (fields : List (String × String)),
      mbp2.collections = some c ∧
      lib.parseMediaType options.Mime = .ok (mediaType, params) ∧
      fields = bodyFields lib (lib.nextParts reader (params "boundary")) ∧
      fields.map Prod.fst = fieldPartNames lib (lib.nextParts reader (params "boundary")) ∧
      c.Args = c.ArgsPost ∧
      (∀ name, c.ArgsPost.get name =
        if name ∈ fields.map Prod.fst then some (fieldValues name fields) else none) ∧
      (∀ name, c.ArgsPostNames.get name =
        if name ∈ fields.map Prod.fst then some [name] else none) ∧
      c.ArgsPostNames.keys.Nodup ∧
      (∀ name, name ∈ c.ArgsPostNames.keys ↔ name ∈ fields.map Prod.fst) := by
  obtain ⟨mediaType, params, st, hp, _, hr, hc⟩ := Read_success lib mbp mbp2 reader options h
  obtain ⟨h1, h2, h3⟩ := readParts_fields lib options.StoragePath _ {} st hr
  obtain ⟨g1, g2, g3⟩ := postNamesMap_aux st.postNames [] (by simp [StringsMap.keys])
  have hnames : st.postNames =
      (bodyFields lib (lib.nextParts reader (params "boundary"))).map Prod.fst := by
    simpa using h1
  refine ⟨st.collections, mediaType, params, _, hc, hp, rfl, h3, rfl, ?_, ?_, ?_, ?_⟩
  · intro name
    have := h2 name
    simp only [ReadState.collections]
    rw [this]
    by_cases hm : name ∈ (bodyFields lib (lib.nextParts reader (params "boundary"))).map Prod.fst
    · have hne := (not_congr (fieldValues_eq_nil_iff name _)).2 (not_not.2 hm)
      simp [appendValues, hne, hm, StringsMap.get]
    · have he := (fieldValues_eq_nil_iff name _).2 hm
      simp [appendValues, he, hm, StringsMap.get]
  · intro name
    have := g1 name
    simp only [ReadState.collections, postNamesMap]
    rw [this, hnames]
    simp [StringsMap.get]
  · exact g2
  · intro name
    have := g3 name
    simp only [ReadState.collections, postNamesMap]
    rw [this, hnames]
    simp [StringsMap.keys]

theorem read_collects_fields_witness :
    (multipartBodyProcessor.mk none).Read demoLib demoBody
        { Mime := "multipart/form-data; boundary=X", StoragePath := "/tmp" } =
      ReadResult.returned
        { collections := some
            { FilesNames := [("", ["f"])], FilesTmpNames := [("", ["/tmp/crzmp0"])],
              Files := [("", ["a.txt"])], FilesSizes := [("", ["5"])],
              ArgsPostNames := [("n", ["n"])], ArgsPost := [("n", ["1"])],
              Args := [("n", ["1"])], FilesCombinedSize := [("", ["6"])] } } none ∧
    bodyFields demoLib demoBody = [("n", "1")] ∧
    ∃ (c : CollectionsMap) (mediaType : String) (params : String → String)
      (fields : List (String × String)),
      (some
          { FilesNames := [("", ["f"])], FilesTmpNames := [("", ["/tmp/crzmp0"])],
            Files := [("", ["a.txt"])], FilesSizes := [("", ["5"])],
            ArgsPostNames := [("n", ["n"])], ArgsPost := [("n", ["1"])],
            Args := [("n", ["1"])], FilesCombinedSize := [("", ["6"])] } : Option CollectionsMap)
        = some c ∧
      demoLib.parseMediaType "multipart/form-data; boundary=X" = .ok (mediaType, params) ∧
      fields = bodyFields demoLib (demoLib.nextParts demoBody (params "boundary")) ∧
      fields.map Prod.fst = fieldPartNames demoLib (demoLib.nextParts demoBody (params "boundary")) ∧
      c.Args = c.ArgsPost ∧
      (∀ name, c.ArgsPost.get name =
        if name ∈ fields.map Prod.fst then some (fieldValues name fields) else none) ∧
      (∀ name, c.ArgsPostNames.get name =
        if name ∈ fields.map Prod.fst then some [name] else none) ∧
      c.ArgsPostNames.keys.Nodup ∧
      (∀ name, name ∈ c.ArgsPostNames.keys ↔ name ∈ fields.map Prod.fst) :=
  ⟨by decide, by decide,
    read_collects_fields demoLib (multipartBodyProcessor.mk none) _ demoBody
      { Mime := "multipart/form-data; boundary=X", StoragePath := "/tmp" } (by decide)⟩

/-- When the media type does not start with `multipart/`, `Read` returns the error
`not a multipart body` and leaves the collections as they were. -/
theorem Read_not_multipart {Reader : Type} (lib : MultipartLib Reader)
    (mbp : multipartBodyProcessor) (reader : Reader) (options : Options)
    (mediaType : String) (params : String → String)
    (hp : lib.parseMediaType options.Mime = .ok (mediaType, params))
    (hb : beginsWith mediaType "multipart/" = false) :
    mbp.Read lib reader options = ReadResult.returned mbp (some "not a multipart body") := by
  unfold multipartBodyProcessor.Read
  simp [hp, hb]

/-- When the media type has no boundary parameter and the library refuses an empty
boundary at the first `NextPart`, as Go does, `Read` returns that error and leaves
the collections as they were. -/
theorem Read_no_boundary {Reader : Type} (lib : MultipartLib Reader)
    (mbp : multipartBodyProcessor) (reader : Reader) (options : Options)
    (mediaType : String) (params : String → String) (err : String)
    (hp : lib.parseMediaType options.Mime = .ok (mediaType, params))
    (hb : beginsWith mediaType "multipart/" = true)
    (hnone : params "boundary" = "")
    (hlib : lib.nextParts reader "" = [.error err]) :
    mbp.Read lib reader options = ReadResult.returned mbp (some err) := by
  unfold multipartBodyProcessor.Read
  simp [hp, hb, hnone, hlib, readParts]

/-- When `options.Mime` is not a well-formed media type, `Read` does not return:
`log.Fatal` ends the process. -/
theorem Read_malformed_mime {Reader : Type} (lib : MultipartLib Reader)
    (mbp : multipartBodyProcessor) (reader : Reader) (options : Options) (err : String)
    (hp : lib.parseMediaType options.Mime = .error err) :
    mbp.Read lib reader options = ReadResult.exit err := by
  unfold multipartBodyProcessor.Read
  simp [hp]

/-- C15 at the input `Options{Mime: ""}`: the media type is not well-formed, and
`Read` returns no error to its caller, the process is ended by `log.Fatal` (line
38).  For a media type that is not `multipart/...`, and for one without boundary,
`Read` does return an error and leaves the collections alone. -/
theorem read_malformed_mime_exits :
    demoLib.parseMediaType "" = .error "mime: no media type" ∧
    (multipartBodyProcessor.mk none).Read demoLib demoBody { Mime := "", StoragePath := "/tmp" }
      = ReadResult.exit "mime: no media type" ∧
    (multipartBodyProcessor.mk none).Read demoLib demoBody
        { Mime := "text/plain", StoragePath := "/tmp" }
      = ReadResult.returned (multipartBodyProcessor.mk none) (some "not a multipart body") ∧
    (multipartBodyProcessor.mk none).Read demoLib demoBody
        { Mime := "multipart/form-data", StoragePath := "/tmp" }
      = ReadResult.returned (multipartBodyProcessor.mk none)
          (some "multipart: boundary is empty") := by
  refine ⟨rfl, ?_, ?_, ?_⟩
  · exact Read_malformed_mime demoLib _ demoBody _ _ rfl
  · decide
  · decide

end Coraza
